import Mathlib

/-!
Verification of the query-to-ranking engine of the ccf-deadlines-pro
repository (the second chat API route: deadline resolver, intent extractor,
relevance / feasibility / difficulty scorers, ranking orchestrator, and the
embedding helper `cosineSimilarity`).

Modelling conventions, stated once:

* JS numbers are modelled as `ℚ` (exact arithmetic); integer-valued scores
  as `Int`.  `Math.round x` is `⌊x + 1/2⌋` (JS rounds half toward +∞).
* A dayjs value is modelled as `Djs`: its epoch instant in milliseconds
  (`valueOf()` of the dayjs utc plugin) together with its display offset in
  minutes (`utcOffset()`).  `dayjs(str).utcOffset(n, true)` on a parseable
  wall-clock string with wall time `naive` (in ms, read as if UTC) has
  `valueOf() = naive - o * 60000` and offset `o`, where `o = 60 * n` when
  `|n| ≤ 16` and `o = n` (minutes!) otherwise — transcribed from the dayjs
  utc plugin.  `d.diff(now)` (ms) is the epoch difference; `d.diff(now,
  'day')` subtracts the zone delta `(now.offset - d.offset) * 60000` and
  truncates toward zero (dayjs `absFloor`), i.e. `Int.tdiv`.
* The server process's own time zone (used by the bare `dayjs(str)` parse in
  the non-`UTC…` branch) is modelled as UTC (offset 0), the usual deployment
  setting; `dayjs().tz("Asia/Shanghai")` yields offset 480 at the true epoch.
* Deadline strings are abstracted by `DeadlineField`: the sentinel `TBD`,
  a parseable wall-clock timestamp (its naive ms value), or an unparseable
  string (dayjs `isValid()` false, dropped by the resolver).  A `"UTC…"`
  timezone whose suffix has no leading integer gives `parseInt` NaN;
  `utcOffset(NaN, true)` only sets the offset field, so `isValid()` stays
  true and the entry IS pushed, with `valueOf()` NaN.  Resolved dates are
  therefore `DayjsVal`: a finite `Djs`, or the NaN-valued date `nan` whose
  every numeric projection is NaN — it never satisfies `isAfter` (orderings
  against NaN are false), counts as not expired (status `'Active'`), and
  fails every day-difference band test (feasibility falls through to 100).
  On such an entry the JS sort comparator returns NaN, which ECMAScript's
  SortCompare maps to +0; the comparator is then inconsistent and the array
  order implementation-defined, so the model's `insertionSort` over the
  matching relation realises one conforming outcome, and order-sensitive
  theorems are stated for NaN-free entry lists, where the comparator is
  consistent and the stable sorted order is fully specified.
* `parseInt` is modelled with whitespace skipping, an optional sign and
  leading decimal digits (the `0x` hex form never arises here).
* External effects are parameters: `getEmb` models the Jina embedding
  service (deterministic per request thanks to the request-level cache),
  `embScore` abstracts the composite `Math.round((cosineSimilarity a b + 1)
  * 50)`; the real-valued instance is `embScoreReal` below.  Pipeline
  theorems quantify over these parameters, so they cover `embScoreReal`.
-/

/-- JS `Math.round` on rationals: half rounds toward `+∞`. -/
def jsRound (x : ℚ) : Int := ⌊x + 1/2⌋

/-- A dayjs value: epoch milliseconds (`valueOf()`) and display offset in
minutes (`utcOffset()`). -/
structure Djs where
  epoch : Int
  offMin : Int
deriving DecidableEq

/-- dayjs `a.diff(b, 'day')`: zone-delta-corrected difference in whole days,
truncated toward zero (dayjs `absFloor`). -/
def diffDays (a b : Djs) : Int :=
  Int.tdiv (a.epoch - b.epoch - (b.offMin - a.offMin) * 60000) 86400000

/-- dayjs `utcOffset(n, true)` offset normalisation: hours when `|n| ≤ 16`,
minutes otherwise (transcribed from the dayjs utc plugin). -/
def tzOffsetMin (n : Int) : Int := if n.natAbs ≤ 16 then 60 * n else n

/-- JS `haystack.includes(needle)` on char lists: `p` occurs as a
contiguous subsequence of `h`. -/
def containsSeq (h p : List Char) : Bool :=
  if p.isPrefixOf h then true else
    match h with
    | [] => false
    | _ :: t => containsSeq t p

/-- JS `s.includes(p)` on strings. -/
def strContains (s p : String) : Bool := containsSeq s.data p.data

/-- JS `toLowerCase`, modelled on the char list (`Char.toLower`, ASCII case
only; CJK characters are unchanged), in a form the kernel can evaluate. -/
def lowerStr (s : String) : String := String.mk (s.data.map Char.toLower)

/-- Numeric value of a decimal digit character. -/
def digitVal (c : Char) : Nat := c.toNat - 48

/-- Value of a list of decimal digit characters, most significant first. -/
def digitsToNat (ds : List Char) : Nat := ds.foldl (fun a c => a * 10 + digitVal c) 0

/-- Leading decimal digits of a char list, `none` when there are none. -/
def parseDigitsNat (cs : List Char) : Option Nat :=
  let ds := cs.takeWhile Char.isDigit
  if ds.isEmpty then none else some (digitsToNat ds)

/-- JS `parseInt` after whitespace skipping: optional sign, then leading
decimal digits; `none` models NaN. -/
def parseIntFrom : List Char → Option Int
  | [] => none
  | c :: rest =>
    if c = '-' then (parseDigitsNat rest).map (fun m => -(m : Int))
    else if c = '+' then (parseDigitsNat rest).map (fun m => (m : Int))
    else (parseDigitsNat (c :: rest)).map (fun m => (m : Int))

/-- JS `parseInt(s)` (decimal) on a char list. -/
def parseIntChars (cs : List Char) : Option Int :=
  parseIntFrom (cs.dropWhile Char.isWhitespace)

/-- Decimal digit character of `d < 10`. -/
def digitChar : Nat → Char
  | 0 => '0' | 1 => '1' | 2 => '2' | 3 => '3' | 4 => '4'
  | 5 => '5' | 6 => '6' | 7 => '7' | 8 => '8' | _ => '9'

/-- Canonical decimal rendering of a natural number (digit char list). -/
def natChars (n : Nat) : List Char :=
  if _h : n < 10 then [digitChar n]
  else natChars (n / 10) ++ [digitChar (n % 10)]
decreasing_by exact Nat.div_lt_self (by omega) (by omega)

/-- Canonical decimal rendering of an integer, `-` sign for negatives. -/
def intChars (n : Int) : List Char :=
  if n < 0 then '-' :: natChars n.natAbs else natChars n.toNat

/-- Canonical signed-integer string of `n`. -/
def intStr (n : Int) : String := String.mk (intChars n)

-- ===================== Data model (app/types.ts + supabase fields) ========

/-- A deadline string, abstracted: the `TBD` sentinel, a dayjs-parseable
wall-clock timestamp (naive ms, read as if UTC), or an unparseable string. -/
inductive DeadlineField
  | TBD
  | date (naiveMs : Int)
  | invalid
deriving DecidableEq

/-- The `TimelineItem` record of `app/types.ts`. -/
structure TimelineItem where
  deadline : DeadlineField
  abstractDeadline : Option String := none
  comment : Option String := none
deriving DecidableEq

/-- The `ConferenceInstance` record of `app/types.ts`; `timeline` and `timezone` may be
absent in database rows (the code guards both). -/
structure ConfInstance where
  year : Int
  id : String := ""
  link : String := ""
  timeline : Option (List TimelineItem)
  timezone : Option String
  date : String := ""
  place : String := ""
deriving DecidableEq

/-- The `Rank` record of `app/types.ts`. -/
structure RankInfo where
  ccf : Option String := none
  core : Option String := none
  thcpl : Option String := none
deriving DecidableEq

/-- One `{year, rate}` acceptance-rate entry (supabase `acceptance_rate`). -/
structure AcceptEntry where
  year : Int
  rate : ℚ
deriving DecidableEq

/-- The `Conference` record of `app/types.ts` merged with the `ConferenceWithEmbedding`
extension of the chat route (embedding, searchText) and the supabase
enrichment fields (keywords, acceptanceRate). -/
structure Conference where
  title : String
  description : String
  sub : String
  rank : Option RankInfo
  confs : Option (List ConfInstance)
  keywords : Option (List String) := none
  acceptanceRate : Option (List AcceptEntry) := none
  embedding : Option (List ℚ) := none
  searchText : Option String := none
deriving DecidableEq

/-- JS `c.rank?.ccf`. -/
def ccfOf (c : Conference) : Option String := c.rank.bind (fun r => r.ccf)

-- ===================== Deadline Resolver (getNextDeadline) ================

/-- A dayjs value as it flows out of the resolver: either a finite instant
`Djs`, or the NaN-valued date produced by `utcOffset(NaN, true)` when
`parseInt` fails on the remainder of a `"UTC…"` timezone — the offset
field becomes NaN while `isValid()` stays true, so `valueOf()`,
`utcOffset()` and every `diff` of the entry are NaN. -/
inductive DayjsVal
  | val (d : Djs)
  | nan
deriving DecidableEq

/-- One entry of the `nextDeadlines` list built by `getNextDeadline`. -/
structure ResolvedDL where
  date : DayjsVal
  info : ConfInstance
  comment : Option String
deriving DecidableEq

/-- Does `s` start with `"UTC"` (JS `tz.startsWith('UTC')`)? -/
def startsWithUTC (s : String) : Bool := ['U', 'T', 'C'].isPrefixOf s.data

/-- The body of the `getNextDeadline` inner loop for one timeline item of
instance `c`: skip `TBD`, normalise `AoE` to `UTC-12`, parse a `UTC±N`
offset with JS `parseInt` (applied with `keepLocalTime`), otherwise parse
the timestamp in the server's own zone; drop invalid results.  When
`parseInt` fails on the `"UTC…"` remainder (NaN offset), the entry still
satisfies `isValid()` and is pushed with a NaN-valued date. -/
def resolveItem (c : ConfInstance) (t : TimelineItem) : Option ResolvedDL :=
  match t.deadline with
  | .TBD => none
  | .invalid => none
  | .date naive =>
    let tz := if c.timezone = some "AoE" then some "UTC-12" else c.timezone
    match tz with
    | none => some ⟨DayjsVal.val ⟨naive, 0⟩, c, t.comment⟩
    | some s =>
      if startsWithUTC s then
        match parseIntChars (s.data.drop 3) with
        | some n =>
          some ⟨DayjsVal.val ⟨naive - tzOffsetMin n * 60000, tzOffsetMin n⟩, c, t.comment⟩
        | none => some ⟨DayjsVal.nan, c, t.comment⟩
      else some ⟨DayjsVal.val ⟨naive, 0⟩, c, t.comment⟩

/-- The full `nextDeadlines` list of `getNextDeadline conf` (before sorting). -/
def collectDeadlines (conf : Conference) : List ResolvedDL :=
  match conf.confs with
  | none => []
  | some cs => cs.flatMap (fun c =>
      match c.timeline with
      | none => []
      | some ts => ts.filterMap (resolveItem c))

/-- The finite instant of a resolved entry, `none` on a NaN-valued date. -/
def dlEpoch? (r : ResolvedDL) : Option Int :=
  match r.date with
  | .val d => some d.epoch
  | .nan => none

/-- The candidate instant list of a conference: the epochs of the resolved
entries that carry a real instant (NaN-dated entries contribute none). -/
def resolvedEpochs (conf : Conference) : List Int :=
  (collectDeadlines conf).filterMap dlEpoch?

/-- Does a resolved entry carry a real instant (a non-NaN date)? -/
def isRealDL (r : ResolvedDL) : Bool :=
  match r.date with
  | .val _ => true
  | .nan => false

/-- Does every resolved entry of the conference carry a real instant? -/
def allRealDL (conf : Conference) : Bool :=
  (collectDeadlines conf).all isRealDL

/-- The JS sort comparator `a.date.valueOf() - b.date.valueOf()`, read as
"`a` may stay before `b`": the comparator value is ≤ 0, where ECMAScript's
SortCompare maps a NaN comparator result to +0 — so any comparison touching
a NaN-valued date counts as "equal".  With a NaN-dated entry present the
comparator is inconsistent (not transitive) and the JS array order is
implementation-defined; this relation realises one conforming outcome.  On
entries that all carry real instants it is the total order by epoch. -/
def dlLEb (a b : ResolvedDL) : Bool :=
  match a.date, b.date with
  | .val da, .val db => da.epoch ≤ db.epoch
  | _, _ => true

/-- The sort relation `dlLEb` as a proposition. -/
def dlLE (a b : ResolvedDL) : Prop := dlLEb a b = true

instance : DecidableRel dlLE := fun a b => inferInstanceAs (Decidable (dlLEb a b = true))

/-- JS `d.isAfter(now)`: a strict epoch comparison, false on a NaN-valued
date (every ordering against NaN is false). -/
def dlAfter (d : DayjsVal) (now : Int) : Bool :=
  match d with
  | .val e => now < e.epoch
  | .nan => false

/-- The resolver `getNextDeadline(conf)` with `now` the server epoch: sort all resolved
deadlines ascending (JS sort is stable, as is insertion sort), return the
first strictly-future one, else the last one, else `null`. -/
def getNextDeadline (conf : Conference) (now : Int) : Option ResolvedDL :=
  let sorted := List.insertionSort dlLE (collectDeadlines conf)
  match sorted.find? (fun d => dlAfter d.date now) with
  | some f => some f
  | none => sorted.getLast?

/-- JS `calculateDeadlineStatus(d).status === 'Expired'`: the ms diff to server
time is negative.  A NaN diff is not `< 0`, so a NaN-valued date counts as
not expired (status `'Active'`). -/
def deadlineExpired (d : DayjsVal) (now : Int) : Bool :=
  match d with
  | .val e => e.epoch - now < 0
  | .nan => false

/-- Remove the `TBD` timeline items of every instance of a conference. -/
def stripTBD (conf : Conference) : Conference :=
  { conf with
    confs := conf.confs.map (fun cs => cs.map (fun c =>
      { c with timeline := c.timeline.map (fun ts =>
          ts.filter (fun t => decide (t.deadline ≠ DeadlineField.TBD))) })) }

-- ===================== Intent Extractor (extractUserIntent) ===============

/-- The fixed research-keyword vocabulary of `extractUserIntent`. -/
def researchKeywords : List String := [
  "深度学习", "机器学习", "强化学习", "多智能体", "自然语言处理", "NLP", "计算机视觉", "CV",
  "图像识别", "目标检测", "语义分割", "知识图谱", "大模型", "LLM", "生成模型", "AIGC",
  "deep learning", "machine learning", "reinforcement learning", "multi-agent",
  "分布式", "云计算", "边缘计算", "容器", "微服务", "数据库", "存储",
  "distributed", "cloud", "database", "storage",
  "安全", "密码学", "隐私", "网络安全", "security", "cryptography", "privacy",
  "网络", "5G", "物联网", "IoT", "network", "wireless",
  "图形学", "渲染", "虚拟现实", "VR", "AR", "graphics", "rendering",
  "人机交互", "HCI", "交互设计", "用户体验",
  "算法", "理论", "algorithm", "theory"]

/-- After `ccf`, skip `\s*` and expect the rank letter `c` (the regex
`ccf\s*[a]` and its `b`, `c` analogues, on the lowercased query). -/
def afterCcfWs (c : Char) : List Char → Bool
  | [] => false
  | x :: t => if x.isWhitespace then afterCcfWs c t else x == c

/-- Continue a `ccf\s*[x]` match after an initial `c`. -/
def startCcfTail (c : Char) : List Char → Bool
  | 'c' :: 'f' :: rest => afterCcfWs c rest
  | _ => false

/-- Does `ccf\s*[c]` match anywhere in `l`? -/
def scanCcf (c : Char) : List Char → Bool
  | [] => false
  | x :: t => (x == 'c' && startCcfTail c t) || scanCcf c t

/-- The rank regex `/ccf\s*[x]|x类|rank x/i` on the lowercased query. -/
def matchRank (l : List Char) (c : Char) : Bool :=
  scanCcf c l || containsSeq l [c, '类'] || containsSeq l ('r' :: 'a' :: 'n' :: 'k' :: ' ' :: [c])

/-- Rank-preference extraction: first of A, B, C whose pattern matches. -/
def rankPrefOf (lq : String) : Option String :=
  if matchRank lq.data 'a' then some "A"
  else if matchRank lq.data 'b' then some "B"
  else if matchRank lq.data 'c' then some "C"
  else none

/-- Skip `\s*`. -/
def skipWs (l : List Char) : List Char := l.dropWhile Char.isWhitespace

/-- Unit part of `/(\d+)\s*个?月/` after the digits. -/
def unitMonthCJK (rest : List Char) : Bool :=
  match skipWs rest with
  | '个' :: '月' :: _ => true
  | '月' :: _ => true
  | _ => false

/-- Unit part of `/(\d+)\s*u/` for a single-character unit `u`. -/
def unitChar (u : Char) (rest : List Char) : Bool :=
  match skipWs rest with
  | x :: _ => x == u
  | [] => false

/-- Unit part of `/(\d+)\s*w.../i` for an ASCII unit word (the optional
trailing `s` of `weeks?` etc. is irrelevant to matching). -/
def unitWord (w : List Char) (rest : List Char) : Bool := w.isPrefixOf (skipWs rest)

/-- Leftmost `/(\d+)\s*<unit>/` match: the captured number of the first
position where maximal leading digits are followed by the unit part.
Backtracking into the digit run cannot help, because no unit part starts
with a digit — so this is the JS leftmost-match semantics. -/
def firstDigitsMatch (check : List Char → Bool) : List Char → Option Nat
  | [] => none
  | x :: t =>
    if x.isDigit then
      (if check ((x :: t).dropWhile Char.isDigit) then
        some (digitsToNat ((x :: t).takeWhile Char.isDigit))
      else firstDigitsMatch check t)
    else firstDigitsMatch check t

/-- The ordered `timePatterns` scan: first pattern with a match wins. -/
def timeBudgetNum (l : List Char) : Option Nat :=
  firstDigitsMatch unitMonthCJK l <|>
  firstDigitsMatch (unitChar '周') l <|>
  firstDigitsMatch (unitChar '天') l <|>
  firstDigitsMatch (unitWord ('w' :: 'e' :: 'e' :: 'k' :: [])) l <|>
  firstDigitsMatch (unitWord ('m' :: 'o' :: 'n' :: 't' :: 'h' :: [])) l <|>
  firstDigitsMatch (unitWord ('d' :: 'a' :: 'y' :: [])) l

/-- The unit factor applied to the captured number: it is decided by
whole-query checks (`query.includes('月') || /month/i.test(query)` etc.),
not by which pattern matched. -/
def unitMultiplier (lq : String) : Nat :=
  if strContains lq "月" || strContains lq "month" then 30
  else if strContains lq "周" || strContains lq "week" then 7
  else 1

/-- The progress-phrase gate of step 4 of `extractUserIntent`. -/
def progressGate (q : String) : Bool :=
  strContains q "完成度" || strContains q "进度" ||
  strContains q "刚开始" || strContains q "快完成"

/-- The qualitative day count inside the progress gate. -/
def qualVal (q : String) : Nat :=
  if strContains q "刚开始" || strContains q "60%" || strContains q "一半" then 60
  else if strContains q "快完成" || strContains q "80%" || strContains q "90%" then 30
  else 90

/-- The generic-request stoplist of the keyword fallback. -/
def stopWords : List String := ["推荐", "会议", "期刊", "请问", "帮我"]

/-- The CJK punctuation replaced by spaces before splitting. -/
def cjkPunct : List Char := ['，', '。', '？', '！', '、']

/-- Split on whitespace runs (empty JS split artefacts are dropped; they
would not pass the length-2 filter anyway). -/
def splitWsAux : List Char → List Char → List (List Char)
  | [], acc => if acc.isEmpty then [] else [acc.reverse]
  | c :: t, acc =>
    if c.isWhitespace then
      (if acc.isEmpty then splitWsAux t [] else acc.reverse :: splitWsAux t [])
    else splitWsAux t (c :: acc)

/-- Step 5 of `extractUserIntent`: split the query on punctuation and
whitespace, keep tokens of length 2–10 outside the stoplist. -/
def fallbackWords (q : String) : List String :=
  let words := splitWsAux (q.data.map (fun c => if c ∈ cjkPunct then ' ' else c)) []
  (words.map String.mk).filter (fun w =>
    decide (2 ≤ w.length) && decide (w.length ≤ 10) && !(stopWords.contains w))

/-- The `UserIntent` record of the chat route (`researchTopic` is never assigned). -/
structure UserIntent where
  researchTopic : Option String := none
  estimatedDays : Option Nat := none
  rankPreference : Option String := none
  keywords : List String := []
deriving DecidableEq

/-- The extractor `extractUserIntent`.  Rank patterns carry the `/i` flag and the ASCII
time patterns too, so all scans run on the lowercased query (CJK characters
are unchanged by lowercasing). -/
def extractUserIntent (q : String) : UserIntent :=
  let lq := lowerStr q
  let rankPreference := rankPrefOf lq
  let numericDays : Option Nat := (timeBudgetNum lq.data).map (fun n => n * unitMultiplier lq)
  let kws := researchKeywords.filter (fun k => strContains lq (lowerStr k))
  -- JS `!intent.estimatedDays` holds both for undefined and for 0
  let estimatedDays :=
    if progressGate q && numericDays.getD 0 = 0 then some (qualVal q) else numericDays
  let keywords := if kws.isEmpty then fallbackWords q else kws
  { estimatedDays := estimatedDays, rankPreference := rankPreference, keywords := keywords }

-- ===================== Scorers ===========================================

/-- The category-to-keyword lookup table of `calculateContentMatch`. -/
def subMap : List (String × List String) := [
  ("AI", ["ai", "人工智能", "机器学习", "深度学习", "nlp", "cv", "vision"]),
  ("SE", ["软件", "software", "工程", "engineering"]),
  ("DB", ["数据库", "database", "数据挖掘", "mining"]),
  ("SC", ["安全", "security", "密码", "crypto"]),
  ("CG", ["图形", "graphics", "视觉", "vision", "多媒体"]),
  ("NW", ["网络", "network"]),
  ("DS", ["系统", "system", "体系结构", "architecture", "分布式"]),
  ("HI", ["交互", "hci", "人机"]),
  ("CT", ["理论", "theory", "算法", "algorithm"])]

/-- The per-keyword contribution of the keyword-fallback loop: 1 for a
conference-tag (sub)match, else 0.8 for a title/description substring,
else 0.6 for a category-table match, else 0. -/
def keywordContribution (conf : Conference) (keyword : String) : ℚ :=
  let kw := lowerStr keyword
  let confKeywords := conf.keywords.getD []
  if confKeywords.any (fun k => strContains k kw || strContains kw k) then 1
  else if strContains (lowerStr conf.title) kw || strContains (lowerStr conf.description) kw then 0.8
  else
    let subKeywords := ((subMap.find? (fun p => p.1 == conf.sub)).map (fun p => p.2)).getD []
    if subKeywords.any (fun k => strContains kw k || strContains k kw) then 0.6
    else 0

/-- The scorer `calculateContentMatch`, with the embedding-similarity score
`Math.round((cosineSimilarity qe ce + 1) * 50)` abstracted as `embScore`
and the Jina call as `getEmb`.  Returns the score together with the
conference, whose `embedding` field the lazy path mutates (caches). -/
def calculateContentMatch (embScore : List ℚ → List ℚ → Int)
    (getEmb : String → Option (List ℚ))
    (conf : Conference) (userKeywords : List String)
    (queryEmbedding : Option (List ℚ)) : Int × Conference :=
  let short : Option Int :=
    match queryEmbedding, conf.embedding with
    | some qe, some ce =>
      let s := embScore qe ce
      if 60 < s then some s else none
    | _, _ => none
  match short with
  | some s => (s, conf)
  | none =>
    if userKeywords.isEmpty then
      match queryEmbedding, conf.embedding with
      | some qe, none =>
        -- JS truthiness of `conf.searchText`: present and non-empty
        if conf.searchText.getD "" ≠ "" then
          match getEmb (conf.searchText.getD "") with
          | some ce => (embScore qe ce, { conf with embedding := some ce })
          | none => (50, conf)
        else (50, conf)
      | _, _ => (50, conf)
    else
      let matchCount := (userKeywords.map (keywordContribution conf)).sum
      let maxScore : ℚ := (userKeywords.length : ℚ)
      (jsRound (matchCount / maxScore * 100), conf)

/-- JS `getServerTime()`: `dayjs().tz("Asia/Shanghai")` — the true epoch with
display offset 480 minutes. -/
def serverNow (now : Int) : Djs := ⟨now, 480⟩

/-- The scorer `calculateTimeFeasibility` (`Math.round` on the integer `50+buffer*2`
is the identity).  On a NaN-valued deadline the day difference and the
buffer are NaN, every `<` test on them is false, and control falls through
to the final band: 100. -/
def calculateTimeFeasibility (deadlineDate : DayjsVal) (estimatedDays : Option Nat)
    (now : Int) : Int :=
  -- JS `!estimatedDays`: no budget, or a budget of 0
  if estimatedDays.getD 0 = 0 then 70
  else
    match deadlineDate with
    | .nan => 100
    | .val dd =>
      let budget : Int := (estimatedDays.getD 0 : Nat)
      let daysUntilDeadline := diffDays dd (serverNow now)
      if daysUntilDeadline < 0 then 0
      else
        let buffer := daysUntilDeadline - budget
        if buffer < 0 then max 0 (50 + buffer * 2)
        else if buffer < 7 then 75
        else if buffer < 14 then 85
        else if buffer < 30 then 95
        else 100

/-- The tier base of `calculateDifficulty`:
`rankScore[conf.rank?.ccf || ''] || 50`. -/
def rankBase (conf : Conference) : Int :=
  match ccfOf conf with
  | some "A" => 30
  | some "B" => 50
  | some "C" => 70
  | _ => 50

/-- The scorer `calculateDifficulty`. -/
def calculateDifficulty (conf : Conference) : Int :=
  let base : ℚ := ((rankBase conf : Int) : ℚ)
  match (conf.acceptanceRate.getD []).getLast? with
  | none => jsRound base
  | some e =>
    let rateAdjust := (e.rate - 25) * 0.5
    jsRound (min 90 (max 20 (base + rateAdjust)))

/-- The `MatchScore` record. -/
structure MatchScore where
  contentMatch : Int
  timeFeasibility : Int
  difficultyScore : Int
  overallScore : Int
deriving DecidableEq

/-- The combiner `calculateMatchScore`: the three axes plus the fixed-weight overall
score. -/
def calculateMatchScore (embScore : List ℚ → List ℚ → Int)
    (getEmb : String → Option (List ℚ))
    (conf : Conference) (deadlineDate : DayjsVal) (intent : UserIntent)
    (queryEmbedding : Option (List ℚ)) (now : Int) : MatchScore × Conference :=
  let cm := calculateContentMatch embScore getEmb conf intent.keywords queryEmbedding
  let contentMatch := cm.1
  let timeFeasibility := calculateTimeFeasibility deadlineDate intent.estimatedDays now
  let difficultyScore := calculateDifficulty conf
  let overallScore := jsRound
    ((contentMatch : ℚ) * 0.4 + (timeFeasibility : ℚ) * 0.35 + (difficultyScore : ℚ) * 0.25)
  (⟨contentMatch, timeFeasibility, difficultyScore, overallScore⟩, cm.2)

-- ===================== Ranking Orchestrator (analyzeQuery) ================

/-- The category keyword table of `analyzeQuery` (step 2). -/
def catKeywords : List (String × List String) := [
  ("AI", ["ai", "artificial intelligence", "人工智能", "machine learning", "深度学习", "强化学习", "nlp", "cv"]),
  ("SE", ["se", "software engineering", "软件工程", "system software", "系统软件"]),
  ("DB", ["db", "database", "数据库", "data mining", "数据挖掘"]),
  ("SC", ["security", "network security", "安全", "信息安全", "网络安全", "密码"]),
  ("CG", ["graphics", "multimedia", "图形学", "多媒体", "cv", "vision", "视觉", "渲染"]),
  ("NW", ["network", "computernetwork", "网络", "计算机网络", "5g", "无线"]),
  ("DS", ["architecture", "system", "体系结构", "存储", "storage", "distributed", "分布式"]),
  ("HI", ["hci", "human", "交互", "人机", "ux", "用户体验"]),
  ("CT", ["theory", "theoretical", "理论", "算法", "algorithm"])]

/-- Step 1 of `analyzeQuery`: the hard rank filter
`results.filter(c => c.rank?.ccf === intent.rankPreference)`. -/
def rankFilterStep (pref : Option String) (results : List Conference) : List Conference :=
  match pref with
  | some r => results.filter (fun c => ccfOf c == some r)
  | none => results

/-- Step 2 of `analyzeQuery`: the first category whose keyword list hits the
lowercased query filters by `sub`; returns the filtered list and the
`matchedCat` flag. -/
def catFilterStep (lq : String) (results : List Conference) : List Conference × Bool :=
  match catKeywords.find? (fun p => p.2.any (fun k => strContains lq k)) with
  | some p => (results.filter (fun c => c.sub == p.1), true)
  | none => (results, false)

/-- Step 3a of `analyzeQuery`: the China location substring filter. -/
def chinaFilterStep (lq : String) (results : List Conference) : List Conference :=
  if strContains lq "china" || strContains lq "中国" then
    results.filter (fun c => (c.confs.getD []).any (fun i =>
      strContains (lowerStr i.place) "china" || strContains i.place "中国"))
  else results

/-- Step 3b of `analyzeQuery`: the 2026 year filter. -/
def yearFilterStep (lq : String) (results : List Conference) : List Conference :=
  if strContains lq "2026" then
    results.filter (fun c => (c.confs.getD []).any (fun i => i.year == 2026))
  else results

/-- The `nameMatch` list of step 4: conferences whose title or description
contains the whole lowercased query. -/
def nameMatchList (lq : String) (results : List Conference) : List Conference :=
  results.filter (fun c =>
    strContains (lowerStr c.title) lq || strContains (lowerStr c.description) lq)

/-- Does step 4 take the name-match branch? -/
def nameBranchCond (lq : String) (matchedCat : Bool) (results : List Conference) : Bool :=
  let nm := nameMatchList lq results
  0 < nm.length && nm.length < results.length && !matchedCat

/-- The fixed past-signal keyword set of step 4. -/
def pastKeywords : List String :=
  ["past", "history", "expired", "previous", "往届", "过期", "历史",
   "2020", "2021", "2022", "2023", "2024"]

/-- Does the query ask for past conferences? -/
def wantsPast (lq : String) : Bool := pastKeywords.any (fun k => strContains lq k)

/-- The expired-exclusion filter of step 4's else branch: keep conferences
whose next deadline exists and is not expired. -/
def notExpiredFilter (now : Int) (results : List Conference) : List Conference :=
  results.filter (fun c =>
    match getNextDeadline c now with
    | some r => !(deadlineExpired r.date now)
    | none => false)

/-- Step 4 of `analyzeQuery`: prefer the name match when it is a proper
non-empty refinement and no category matched; otherwise auto-exclude
expired conferences unless a past signal is present. -/
def step4 (lq : String) (matchedCat : Bool) (now : Int)
    (results : List Conference) : List Conference :=
  if nameBranchCond lq matchedCat results then nameMatchList lq results
  else if wantsPast lq then results
  else notExpiredFilter now results

/-- JS `dayjs().add(1, 'year')`, the placeholder deadline for conferences
without one.  The calendar-aware year addition is modelled as 365 days; no
claim depends on the exact value. -/
def oneYearLater (now : Int) : Djs := ⟨now + 31536000000, 0⟩

/-- One entry of `scoredResults`. -/
structure ScoredEntry where
  conf : Conference
  score : MatchScore
  deadline : Option ResolvedDL
deriving DecidableEq

/-- Step 6 of `analyzeQuery`: score every remaining conference. -/
def scoreStep (embScore : List ℚ → List ℚ → Int) (getEmb : String → Option (List ℚ))
    (intent : UserIntent) (queryEmbedding : Option (List ℚ)) (now : Int)
    (results : List Conference) : List ScoredEntry :=
  results.map (fun conf =>
    let nextDeadline := getNextDeadline conf now
    let deadlineDate := (nextDeadline.map (fun r => r.date)).getD (DayjsVal.val (oneYearLater now))
    let sc := calculateMatchScore embScore getEmb conf deadlineDate intent queryEmbedding now
    ⟨sc.2, sc.1, nextDeadline⟩)

/-- Descending order by overall score, as compared by the JS sort comparator
`(a, b) => b.score.overallScore - a.score.overallScore`. -/
def scoreGE (a b : ScoredEntry) : Prop := b.score.overallScore ≤ a.score.overallScore

instance : DecidableRel scoreGE := fun a b => Int.decLe b.score.overallScore a.score.overallScore

instance : IsTotal ScoredEntry scoreGE := ⟨fun a b => Int.le_total b.score.overallScore a.score.overallScore⟩

instance : IsTrans ScoredEntry scoreGE := ⟨fun _ _ _ h₁ h₂ => le_trans h₂ h₁⟩

/-- The result record of `analyzeQuery`. -/
structure AnalyzeResult where
  results : List Conference
  scoredResults : List ScoredEntry
  conditions : List String
  intent : UserIntent
deriving DecidableEq

/-- Steps 1–2 of `analyzeQuery` applied to the query: rank filter, then
category filter (with its `matchedCat` flag). -/
def stageCat (query : String) (confs : List Conference) : List Conference × Bool :=
  catFilterStep (lowerStr query) (rankFilterStep (extractUserIntent query).rankPreference confs)

/-- Steps 1–3 of `analyzeQuery`: rank, category, location and year filters —
the candidate list step 4 starts from. -/
def stagePreName (query : String) (confs : List Conference) : List Conference :=
  yearFilterStep (lowerStr query) (chinaFilterStep (lowerStr query) (stageCat query confs).1)

/-- Steps 1–4 of `analyzeQuery`: the fully filtered candidate list. -/
def analyzeFiltered (now : Int) (query : String) (confs : List Conference) :
    List Conference :=
  step4 (lowerStr query) (stageCat query confs).2 now (stagePreName query confs)

/-- Steps 5–7 of `analyzeQuery`: score the filtered candidates and sort by
overall score, descending (stable). -/
def analyzeSorted (embScore : List ℚ → List ℚ → Int) (getEmb : String → Option (List ℚ))
    (hasJinaKey : Bool) (now : Int) (query : String) (confs : List Conference) :
    List ScoredEntry :=
  let queryEmbedding := if hasJinaKey then getEmb query else none
  List.insertionSort scoreGE
    (scoreStep embScore getEmb (extractUserIntent query) queryEmbedding now
      (analyzeFiltered now query confs))

/-- The orchestrator `analyzeQuery`: filter stages, then scoring, then the stable descending
sort by overall score.  `hasJinaKey` models `process.env.JINA_API_KEY`;
`embScore`/`getEmb` are the embedding collaborators (see the header). -/
def analyzeQuery (embScore : List ℚ → List ℚ → Int) (getEmb : String → Option (List ℚ))
    (hasJinaKey : Bool) (now : Int) (query : String)
    (allConferences : List Conference) : AnalyzeResult :=
  let lq := lowerStr query
  let intent := extractUserIntent query
  let r4 := stagePreName query allConferences
  let sorted := analyzeSorted embScore getEmb hasJinaKey now query allConferences
  let conditions :=
    (match intent.rankPreference with
     | some r => ["CCF " ++ r ++ "类"]
     | none => []) ++
    (match catKeywords.find? (fun p => p.2.any (fun k => strContains lq k)) with
     | some p => [p.1 ++ "领域"]
     | none => []) ++
    (if strContains lq "china" || strContains lq "中国" then ["在中国举办"] else []) ++
    (if strContains lq "2026" then ["2026年"] else []) ++
    (if nameBranchCond lq (stageCat query allConferences).2 r4 then
      ["包含 \"" ++ query ++ "\""] else [])
  ⟨sorted.map (fun e => e.conf), sorted, conditions, intent⟩

-- ===================== cosineSimilarity (lib/embedding.ts) ================

/-- Sum of pairwise products (the `dotProduct` accumulator). -/
def dotSum (a b : List ℝ) : ℝ := (List.zipWith (fun x y => x * y) a b).sum

/-- Sum of squares (the `normA`/`normB` accumulators, before `Math.sqrt`). -/
def sqSum (a : List ℝ) : ℝ := (a.map (fun x => x * x)).sum

open Classical in
/-- The helper `cosineSimilarity` of `lib/embedding.ts`, over ideal reals (JS floats
carry no exactness guarantees; `Math.sqrt` forces the real model, hence
noncomputable): 0 for length mismatch or a zero norm, otherwise the dot
product over the product of the Euclidean norms. -/
noncomputable def cosineSimilarity (a b : List ℝ) : ℝ :=
  if a.length ≠ b.length then 0
  else if sqSum a = 0 ∨ sqSum b = 0 then 0
  else dotSum a b / (Real.sqrt (sqSum a) * Real.sqrt (sqSum b))

/-- JS `Math.round` over the reals. -/
noncomputable def jsRoundR (x : ℝ) : Int := ⌊x + 1/2⌋

/-- The real embedding-similarity score used by `calculateContentMatch`:
`Math.round((cosineSimilarity a b + 1) * 50)` on rational input vectors. -/
noncomputable def embScoreReal (a b : List ℚ) : Int :=
  jsRoundR ((cosineSimilarity (a.map (fun x => (x : ℝ))) (b.map (fun x => (x : ℝ))) + 1) * 50)

-- ===================== Helper lemmas =====================================

theorem mem_of_getLast?_eq_some {α : Type} {l : List α} {x : α}
    (h : l.getLast? = some x) : x ∈ l := by
  induction l with
  | nil => simp at h
  | cons a t ih =>
    cases t with
    | nil => simp_all
    | cons b u =>
      rw [List.getLast?_cons_cons] at h
      exact List.mem_cons_of_mem a (ih h)

theorem pairwise_find?_min {α : Type} {r : α → α → Prop} {p : α → Bool}
    {l : List α} {f : α} (hrefl : ∀ x, r x x)
    (hs : l.Pairwise r) (hf : l.find? p = some f) :
    ∀ y ∈ l, p y = true → r f y := by
  induction l with
  | nil => simp at hf
  | cons a t ih =>
    rw [List.find?_cons] at hf
    rcases List.pairwise_cons.mp hs with ⟨ha, ht⟩
    by_cases hpa : p a
    · simp only [hpa] at hf
      cases hf
      intro y hy _
      rcases List.mem_cons.mp hy with h | h
      · exact h ▸ hrefl f
      · exact ha y h
    · rw [Bool.not_eq_true] at hpa
      simp only [hpa] at hf
      intro y hy hpy
      rcases List.mem_cons.mp hy with h | h
      · rw [h, hpa] at hpy; exact absurd hpy (by simp)
      · exact ih ht hf y h hpy

theorem pairwise_getLast?_max {α : Type} {r : α → α → Prop}
    {l : List α} {x : α} (hrefl : ∀ y, r y y)
    (hs : l.Pairwise r) (hx : l.getLast? = some x) :
    ∀ y ∈ l, r y x := by
  induction l with
  | nil => simp at hx
  | cons a t ih =>
    rcases List.pairwise_cons.mp hs with ⟨ha, ht⟩
    cases t with
    | nil =>
      simp only [List.getLast?_singleton, Option.some.injEq] at hx
      subst hx
      intro y hy
      rcases List.mem_cons.mp hy with h | h
      · subst h; exact hrefl y
      · simp at h
    | cons b u =>
      rw [List.getLast?_cons_cons] at hx
      intro y hy
      rcases List.mem_cons.mp hy with h | h
      · exact h ▸ ha x (mem_of_getLast?_eq_some hx)
      · exact ih ht hx y h

theorem filterMap_filter_of_none {α β : Type} {p : α → Bool} {f : α → Option β}
    (hf : ∀ x, p x = false → f x = none) (l : List α) :
    List.filterMap f (l.filter p) = List.filterMap f l := by
  induction l with
  | nil => rfl
  | cons a t ih =>
    by_cases hpa : p a
    · rw [List.filter_cons_of_pos hpa, List.filterMap_cons, List.filterMap_cons, ih]
    · rw [List.filter_cons_of_neg (by simpa using hpa), List.filterMap_cons,
        hf a (by simpa using hpa), ih]

theorem resolveItem_date_congr (c₁ c₂ : ConfInstance) (t : TimelineItem)
    (h : c₁.timezone = c₂.timezone) :
    (resolveItem c₁ t).map (fun r => r.date) = (resolveItem c₂ t).map (fun r => r.date) := by
  unfold resolveItem
  cases t.deadline with
  | TBD => rfl
  | invalid => rfl
  | date naive =>
    rw [h]
    cases hz : (if c₂.timezone = some "AoE" then some "UTC-12" else c₂.timezone) with
    | none => rfl
    | some s =>
      by_cases hu : startsWithUTC s
      · simp only [hu, if_true]
        cases parseIntChars (s.data.drop 3) <;> rfl
      · simp [hu]

theorem resolveItem_TBD (c : ConfInstance) (t : TimelineItem)
    (h : t.deadline = DeadlineField.TBD) : resolveItem c t = none := by
  unfold resolveItem; rw [h]

theorem collectDates_stripTBD (conf : Conference) :
    (collectDeadlines (stripTBD conf)).map (fun r => r.date) =
      (collectDeadlines conf).map (fun r => r.date) := by
  unfold collectDeadlines stripTBD
  cases hc : conf.confs with
  | none => rfl
  | some cs =>
    simp only [Option.map_some']
    rw [List.flatMap_map, List.map_flatMap, List.map_flatMap]
    apply List.flatMap_congr
    intro c _
    cases ht : c.timeline with
    | none => rfl
    | some ts =>
      simp only [Option.map_some']
      rw [List.map_filterMap, List.map_filterMap]
      refine (filterMap_filter_of_none ?_ ts).trans ?_
      · intro t hpt
        have hd : t.deadline = DeadlineField.TBD := by
          by_contra hne
          simp [hne] at hpt
        rw [resolveItem_TBD _ t hd]
        rfl
      · apply List.filterMap_congr
        intro t _
        exact resolveItem_date_congr _ c t rfl

theorem getNextDeadline_eq (conf : Conference) (now : Int) :
    getNextDeadline conf now =
      match (List.insertionSort dlLE (collectDeadlines conf)).find?
          (fun d => dlAfter d.date now) with
      | some f => some f
      | none => (List.insertionSort dlLE (collectDeadlines conf)).getLast? := rfl

theorem dlEpoch?_eq_some {r : ResolvedDL} {x : Int} :
    dlEpoch? r = some x ↔ ∃ d, r.date = DayjsVal.val d ∧ d.epoch = x := by
  cases hd : r.date with
  | val d => simp [dlEpoch?, hd]
  | nan => simp [dlEpoch?, hd]

/-- The total comparison by epoch used to reason about NaN-free entry lists;
where every entry carries a real instant it agrees with `dlLE`. -/
def dlKey (r : ResolvedDL) : Int :=
  match r.date with
  | .val d => d.epoch
  | .nan => 0

def dlLEt (a b : ResolvedDL) : Prop := dlKey a ≤ dlKey b

instance : DecidableRel dlLEt := fun a b => Int.decLe (dlKey a) (dlKey b)

instance : IsTotal ResolvedDL dlLEt := ⟨fun a b => Int.le_total (dlKey a) (dlKey b)⟩

instance : IsTrans ResolvedDL dlLEt := ⟨fun _ _ _ h₁ h₂ => le_trans h₁ h₂⟩

theorem orderedInsert_congr {α : Type} (r s : α → α → Prop)
    [DecidableRel r] [DecidableRel s] (a : α) (l : List α)
    (h : ∀ b ∈ l, (r a b ↔ s a b)) :
    l.orderedInsert r a = l.orderedInsert s a := by
  induction l with
  | nil => rfl
  | cons b t ih =>
    simp only [List.orderedInsert]
    by_cases hb : r a b
    · rw [if_pos hb, if_pos ((h b (List.mem_cons_self b t)).mp hb)]
    · rw [if_neg hb, if_neg (fun h2 => hb ((h b (List.mem_cons_self b t)).mpr h2)),
        ih (fun c hc => h c (List.mem_cons_of_mem b hc))]

theorem insertionSort_congr {α : Type} (r s : α → α → Prop)
    [DecidableRel r] [DecidableRel s] (l : List α)
    (h : ∀ a ∈ l, ∀ b ∈ l, (r a b ↔ s a b)) :
    l.insertionSort r = l.insertionSort s := by
  induction l with
  | nil => rfl
  | cons a t ih =>
    simp only [List.insertionSort]
    rw [ih (fun x hx y hy => h x (List.mem_cons_of_mem a hx) y (List.mem_cons_of_mem a hy))]
    exact orderedInsert_congr r s a _ (fun b hb =>
      h a (List.mem_cons_self a t) b
        (List.mem_cons_of_mem a ((List.perm_insertionSort s t).mem_iff.mp hb)))

/-- C1 (amended): the Deadline Resolver excludes `TBD` timeline items from
the resolved entry list; when every resolved entry carries a real instant
(no `UTC`-prefixed timezone with an unparseable offset), it selects the
earliest instant strictly after `now`, falls back to the latest non-future
instant when no future one exists, and returns no deadline exactly when the
instant list is empty; in general it returns no deadline exactly when the
resolved entry list — NaN-dated entries included — is empty (a NaN-dated
entry can be returned by the fallback in place of the latest past instant;
see the counterexample). -/
theorem claim_C1_next_deadline (conf : Conference) (now : Int) :
    (collectDeadlines (stripTBD conf)).map (fun r => r.date) =
      (collectDeadlines conf).map (fun r => r.date)
    ∧ (allRealDL conf = true →
        ((∃ x ∈ resolvedEpochs conf, now < x) →
          ∃ r e, getNextDeadline conf now = some r ∧ r.date = DayjsVal.val e ∧
            now < e.epoch ∧ e.epoch ∈ resolvedEpochs conf ∧
            ∀ y ∈ resolvedEpochs conf, now < y → e.epoch ≤ y)
        ∧ ((resolvedEpochs conf ≠ [] ∧ ∀ x ∈ resolvedEpochs conf, ¬ now < x) →
          ∃ r e, getNextDeadline conf now = some r ∧ r.date = DayjsVal.val e ∧
            ¬ now < e.epoch ∧ e.epoch ∈ resolvedEpochs conf ∧
            ∀ y ∈ resolvedEpochs conf, y ≤ e.epoch)
        ∧ (getNextDeadline conf now = none ↔ resolvedEpochs conf = []))
    ∧ (getNextDeadline conf now = none ↔ collectDeadlines conf = []) := by
  have hperm := List.perm_insertionSort dlLE (collectDeadlines conf)
  have hmem : ∀ x, x ∈ resolvedEpochs conf ↔
      ∃ r ∈ collectDeadlines conf, ∃ d, r.date = DayjsVal.val d ∧ d.epoch = x := by
    intro x
    unfold resolvedEpochs
    rw [List.mem_filterMap]
    constructor
    · rintro ⟨r, hrL, he⟩
      exact ⟨r, hrL, dlEpoch?_eq_some.mp he⟩
    · rintro ⟨r, hrL, hd⟩
      exact ⟨r, hrL, dlEpoch?_eq_some.mpr hd⟩
  refine ⟨collectDates_stripTBD conf, ?_, ?_⟩
  · intro hreal
    have hr : ∀ x ∈ collectDeadlines conf, ∃ d, x.date = DayjsVal.val d := by
      intro x hx
      have hb := List.all_eq_true.mp hreal x hx
      cases hd : x.date with
      | val d => exact ⟨d, rfl⟩
      | nan => simp [isRealDL, hd] at hb
    have hiff : ∀ a ∈ collectDeadlines conf, ∀ b ∈ collectDeadlines conf,
        (dlLE a b ↔ dlLEt a b) := by
      intro a ha b hb
      obtain ⟨da, hda⟩ := hr a ha
      obtain ⟨db, hdb⟩ := hr b hb
      simp [dlLE, dlLEb, dlLEt, dlKey, hda, hdb]
    have hseq : List.insertionSort dlLE (collectDeadlines conf) =
        List.insertionSort dlLEt (collectDeadlines conf) :=
      insertionSort_congr dlLE dlLEt _ hiff
    have hsort : List.Pairwise dlLEt (List.insertionSort dlLE (collectDeadlines conf)) := by
      rw [hseq]
      exact List.sorted_insertionSort dlLEt (collectDeadlines conf)
    have hrefl : ∀ x : ResolvedDL, dlLEt x x := fun x => le_refl (dlKey x)
    refine ⟨?_, ?_, ?_⟩
    · rintro ⟨x, hx, hnx⟩
      obtain ⟨r0, hr0L, d0, hd0, he0⟩ := (hmem x).mp hx
      have hr0S : r0 ∈ List.insertionSort dlLE (collectDeadlines conf) :=
        hperm.mem_iff.mpr hr0L
      cases hf : (List.insertionSort dlLE (collectDeadlines conf)).find?
          (fun d => dlAfter d.date now) with
      | none =>
        exfalso
        have hfail := List.find?_eq_none.mp hf r0 hr0S
        simp only [dlAfter, hd0, he0, decide_eq_true_eq] at hfail
        exact hfail hnx
      | some f =>
        have hfS := List.mem_of_find?_eq_some hf
        have hfL : f ∈ collectDeadlines conf := hperm.mem_iff.mp hfS
        obtain ⟨ef, hef⟩ := hr f hfL
        have hfp := List.find?_some hf
        have hnf : now < ef.epoch := by
          simp only [dlAfter, hef, decide_eq_true_eq] at hfp
          exact hfp
        refine ⟨f, ef, ?_, hef, hnf, ?_, ?_⟩
        · rw [getNextDeadline_eq, hf]
        · exact (hmem _).mpr ⟨f, hfL, ef, hef, rfl⟩
        · intro y hy hny
          obtain ⟨s, hsL, ds, hds, hse⟩ := (hmem y).mp hy
          have hdl := pairwise_find?_min hrefl hsort hf s (hperm.mem_iff.mpr hsL)
            (by simp [dlAfter, hds, hse, hny])
          simp only [dlLEt, dlKey, hef, hds] at hdl
          rw [← hse]
          exact hdl
    · rintro ⟨hne, hall⟩
      have hfn : (List.insertionSort dlLE (collectDeadlines conf)).find?
          (fun d => dlAfter d.date now) = none := by
        apply List.find?_eq_none.mpr
        intro r2 hrS
        obtain ⟨d2, hd2⟩ := hr r2 (hperm.mem_iff.mp hrS)
        have hy : d2.epoch ∈ resolvedEpochs conf :=
          (hmem _).mpr ⟨r2, hperm.mem_iff.mp hrS, d2, hd2, rfl⟩
        simp only [dlAfter, hd2, decide_eq_true_eq]
        exact hall _ hy
      have hLne : collectDeadlines conf ≠ [] := by
        intro h0
        apply hne
        unfold resolvedEpochs
        rw [h0]
        rfl
      have hSne : List.insertionSort dlLE (collectDeadlines conf) ≠ [] := by
        intro h0
        apply hLne
        have hp := hperm
        rw [h0] at hp
        exact (hp.symm).eq_nil
      obtain ⟨x, hx⟩ := Option.ne_none_iff_exists'.mp
        (fun h0 => hSne (List.getLast?_eq_none_iff.mp h0))
      have hxS := mem_of_getLast?_eq_some hx
      have hxL := hperm.mem_iff.mp hxS
      obtain ⟨ex, hex⟩ := hr x hxL
      have hxE : ex.epoch ∈ resolvedEpochs conf := (hmem _).mpr ⟨x, hxL, ex, hex, rfl⟩
      refine ⟨x, ex, ?_, hex, hall _ hxE, hxE, ?_⟩
      · rw [getNextDeadline_eq, hfn]
        exact hx
      · intro y hy
        obtain ⟨s, hsL, ds, hds, hse⟩ := (hmem y).mp hy
        have hdl := pairwise_getLast?_max hrefl hsort hx s (hperm.mem_iff.mpr hsL)
        simp only [dlLEt, dlKey, hds, hex] at hdl
        rw [← hse]
        exact hdl
    · constructor
      · intro h
        cases hf : (List.insertionSort dlLE (collectDeadlines conf)).find?
            (fun d => dlAfter d.date now) with
        | some f =>
          rw [getNextDeadline_eq, hf] at h
          exact absurd h (by simp)
        | none =>
          rw [getNextDeadline_eq, hf] at h
          have hS0 := List.getLast?_eq_none_iff.mp h
          have hp := hperm
          rw [hS0] at hp
          have hL0 := (hp.symm).eq_nil
          unfold resolvedEpochs
          rw [hL0]
          rfl
      · intro h
        have hL0 : collectDeadlines conf = [] := by
          cases hcl : collectDeadlines conf with
          | nil => rfl
          | cons a t =>
            exfalso
            obtain ⟨da, hda⟩ := hr a (by rw [hcl]; exact List.mem_cons_self a t)
            have hmm : da.epoch ∈ resolvedEpochs conf :=
              (hmem _).mpr ⟨a, by rw [hcl]; exact List.mem_cons_self a t, da, hda, rfl⟩
            rw [h] at hmm
            exact absurd hmm (List.not_mem_nil _)
        rw [getNextDeadline_eq, hL0]
        rfl
  · constructor
    · intro h
      cases hf : (List.insertionSort dlLE (collectDeadlines conf)).find?
          (fun d => dlAfter d.date now) with
      | some f =>
        rw [getNextDeadline_eq, hf] at h
        exact absurd h (by simp)
      | none =>
        rw [getNextDeadline_eq, hf] at h
        have hS0 := List.getLast?_eq_none_iff.mp h
        have hp := hperm
        rw [hS0] at hp
        exact (hp.symm).eq_nil
    · intro h
      rw [getNextDeadline_eq, h]
      rfl

theorem digitChar_spec (d : Nat) (h : d < 10) :
    (digitChar d).isDigit = true ∧ (digitChar d).isWhitespace = false ∧
    digitVal (digitChar d) = d ∧ digitChar d ≠ '-' ∧ digitChar d ≠ '+' := by
  interval_cases d <;> exact ⟨by decide, by decide, by decide, by decide, by decide⟩

theorem natChars_spec (n : Nat) :
    (∀ c ∈ natChars n, c.isDigit = true ∧ c.isWhitespace = false ∧
      c ≠ '-' ∧ c ≠ '+') ∧
    digitsToNat (natChars n) = n ∧ natChars n ≠ [] := by
  induction n using Nat.strong_induction_on with
  | _ n ih =>
    rw [natChars]
    by_cases h : n < 10
    · rw [dif_pos h]
      obtain ⟨h1, h2, h3, h4, h5⟩ := digitChar_spec n h
      refine ⟨?_, ?_, by simp⟩
      · intro c hc
        rw [List.mem_singleton] at hc
        subst hc
        exact ⟨h1, h2, h4, h5⟩
      · simp [digitsToNat, h3]
    · rw [dif_neg h]
      have hdiv : n / 10 < n := Nat.div_lt_self (by omega) (by omega)
      have hmod : n % 10 < 10 := Nat.mod_lt n (by omega)
      obtain ⟨ih1, ih2, ih3⟩ := ih (n / 10) hdiv
      obtain ⟨g1, g2, g3, g4, g5⟩ := digitChar_spec (n % 10) hmod
      refine ⟨?_, ?_, by simp⟩
      · intro c hc
        rcases List.mem_append.mp hc with hc | hc
        · exact ih1 c hc
        · rw [List.mem_singleton] at hc
          subst hc
          exact ⟨g1, g2, g4, g5⟩
      · have happ : digitsToNat (natChars (n / 10) ++ [digitChar (n % 10)]) =
            digitsToNat (natChars (n / 10)) * 10 + digitVal (digitChar (n % 10)) := by
          simp [digitsToNat, List.foldl_append]
        rw [happ, ih2, g3]
        omega

theorem takeWhile_all {α : Type} {p : α → Bool} {l : List α}
    (h : ∀ x ∈ l, p x = true) : l.takeWhile p = l := by
  induction l with
  | nil => rfl
  | cons a t iht =>
    simp only [List.takeWhile_cons, h a (List.mem_cons_self a t), if_true]
    rw [iht (fun x hx => h x (List.mem_cons_of_mem a hx))]

theorem dropWhile_all_neg {α : Type} {p : α → Bool} {l : List α}
    (h : ∀ x ∈ l, p x = false) : l.dropWhile p = l := by
  cases l with
  | nil => rfl
  | cons a t =>
    simp [List.dropWhile_cons, h a (List.mem_cons_self a t)]

theorem parseDigitsNat_natChars (m : Nat) : parseDigitsNat (natChars m) = some m := by
  obtain ⟨h1, h2, h3⟩ := natChars_spec m
  unfold parseDigitsNat
  rw [takeWhile_all (fun c hc => (h1 c hc).1)]
  simp only [List.isEmpty_iff]
  rw [if_neg h3, h2]

theorem parseIntChars_natChars (m : Nat) : parseIntChars (natChars m) = some (m : Int) := by
  obtain ⟨h1, _, h3⟩ := natChars_spec m
  unfold parseIntChars
  rw [dropWhile_all_neg (fun c hc => (h1 c hc).2.1)]
  cases hm : natChars m with
  | nil => exact absurd hm h3
  | cons c cs =>
    have hc := h1 c (hm ▸ List.mem_cons_self c cs)
    simp only [parseIntFrom]
    rw [if_neg hc.2.2.1, if_neg hc.2.2.2, ← hm, parseDigitsNat_natChars]
    rfl

theorem parseIntChars_plusNat (m : Nat) :
    parseIntChars ('+' :: natChars m) = some (m : Int) := by
  unfold parseIntChars
  rw [List.dropWhile_cons]
  simp only [show ('+'.isWhitespace) = false from rfl, Bool.false_eq_true, if_false]
  simp only [parseIntFrom]
  simp only [if_true]
  rw [parseDigitsNat_natChars]
  rfl

theorem parseIntChars_intChars (n : Int) : parseIntChars (intChars n) = some n := by
  unfold intChars
  by_cases h : n < 0
  · rw [if_pos h]
    unfold parseIntChars
    rw [List.dropWhile_cons]
    simp only [show ('-'.isWhitespace) = false from rfl, Bool.false_eq_true, if_false]
    simp only [parseIntFrom]
    simp only [if_true]
    rw [parseDigitsNat_natChars]
    show some (-((n.natAbs : Nat) : Int)) = some n
    congr 1
    omega
  · rw [if_neg h]
    rw [parseIntChars_natChars]
    congr 1
    omega

theorem intStr_data (n : Int) : (intStr n).data = intChars n := rfl

theorem mk_data (l : List Char) : (String.mk l).data = l := rfl

/-- C6 (amended): per Instance, `AoE` resolves exactly like `UTC-12`; a
notation `UTC` followed by a signed integer `n` resolves to the offset
`tzOffsetMin n` — `n` hours when `|n| ≤ 16` but `n` minutes when
`|n| > 16` (the dayjs `utcOffset` convention); a `UTC`-prefixed value whose
remainder has no parseable leading integer (e.g. the bare `UTC`) yields a
NaN-offset, NaN-valued date entry that is still pushed; and a timezone that
is neither `AoE` nor `UTC`-prefixed (or is absent) is treated as already
absolute, with no offset applied to the parsed local timestamp. -/
theorem claim_C6_timezone_offsets (c : ConfInstance) (t : TimelineItem) (naive : Int) :
    (c.timezone = some "AoE" →
      (resolveItem c t).map (fun r => r.date) =
        (resolveItem { c with timezone := some "UTC-12" } t).map (fun r => r.date))
    ∧ (∀ n : Int, c.timezone = some ("UTC" ++ intStr n) →
        t.deadline = DeadlineField.date naive →
        resolveItem c t =
          some ⟨DayjsVal.val ⟨naive - tzOffsetMin n * 60000, tzOffsetMin n⟩, c, t.comment⟩)
    ∧ (∀ m : Nat, c.timezone = some ("UTC" ++ String.mk ('+' :: natChars m)) →
        t.deadline = DeadlineField.date naive →
        resolveItem c t =
          some ⟨DayjsVal.val ⟨naive - tzOffsetMin m * 60000, tzOffsetMin m⟩, c, t.comment⟩)
    ∧ (∀ s, c.timezone = some s → startsWithUTC s = true →
        parseIntChars (s.data.drop 3) = none →
        t.deadline = DeadlineField.date naive →
        resolveItem c t = some ⟨DayjsVal.nan, c, t.comment⟩)
    ∧ (∀ s, c.timezone = some s → s ≠ "AoE" → startsWithUTC s = false →
        t.deadline = DeadlineField.date naive →
        resolveItem c t = some ⟨DayjsVal.val ⟨naive, 0⟩, c, t.comment⟩)
    ∧ (c.timezone = none → t.deadline = DeadlineField.date naive →
        resolveItem c t = some ⟨DayjsVal.val ⟨naive, 0⟩, c, t.comment⟩) := by
  have hpre : ∀ s : String, startsWithUTC ("UTC" ++ s) = true := by
    intro s
    unfold startsWithUTC
    rw [String.data_append]
    simp [List.isPrefixOf]
  have hdrop : ∀ s : String, ("UTC" ++ s).data.drop 3 = s.data := by
    intro s
    rw [String.data_append]
    rfl
  have hneAoE : ∀ s : String, startsWithUTC s = true → s ≠ "AoE" := by
    intro s hs he
    rw [he] at hs
    exact absurd hs (by decide)
  refine ⟨?_, ?_, ?_, ?_, ?_, ?_⟩
  · intro hz
    cases htd : t.deadline with
    | TBD => simp [resolveItem, htd]
    | invalid => simp [resolveItem, htd]
    | date naive' =>
      unfold resolveItem
      rw [htd, hz]
      rfl
  · intro n hz ht
    simp [resolveItem, ht, hz, hneAoE _ (hpre (intStr n)), hpre (intStr n), hdrop,
      intStr_data, parseIntChars_intChars]
  · intro m hz ht
    simp [resolveItem, ht, hz, hneAoE _ (hpre (String.mk ('+' :: natChars m))),
      hpre (String.mk ('+' :: natChars m)), hdrop, mk_data, parseIntChars_plusNat]
  · intro s hz hsw hpn ht
    simp [resolveItem, ht, hz, hneAoE _ hsw, hsw, hpn]
  · intro s hz hne hsw ht
    simp [resolveItem, ht, hz, hne, hsw]
  · intro hz ht
    simp [resolveItem, ht, hz]

/-- Fixture: an instance in timezone `UTC-17`, a notation of the form `UTC`
followed by the signed integer −17, with one parseable deadline at naive 0. -/
def c6InstM17 : ConfInstance :=
  { year := 2026, timeline := some [⟨DeadlineField.date 0, none, none⟩],
    timezone := some "UTC-17" }

/-- Fixture: an instance whose timezone is the bare string `"UTC"` (the
database column default), with one parseable deadline at naive 0. -/
def c6InstBare : ConfInstance :=
  { year := 2026, timeline := some [⟨DeadlineField.date 0, none, none⟩],
    timezone := some "UTC" }

/-- C6 counterexample, two parts.  First, `"UTC-17"` is `"UTC"` followed by
the signed integer −17, yet the resolver applies −17 *minutes* (epoch
`0 + 17·60000`), not the −17 *hours* (`0 + 17·3600000`) the claim's clause
would require.  Second, the bare timezone `"UTC"` is not `"UTC"` followed
by a signed integer, so the claim's "any other value" clause would treat it
as already absolute (finite epoch 0, no offset) — but the resolver pushes a
NaN-valued date entry instead. -/
theorem claim_C6_counterexample :
    "UTC-17" = "UTC" ++ intStr (-17)
    ∧ (resolveItem c6InstM17 ⟨DeadlineField.date 0, none, none⟩).bind dlEpoch? =
        some (0 + 17 * 60000)
    ∧ (0 + 17 * 60000 : Int) ≠ 0 + 17 * 3600000
    ∧ (resolveItem c6InstBare ⟨DeadlineField.date 0, none, none⟩).map
        (fun r => r.date) = some DayjsVal.nan
    ∧ DayjsVal.nan ≠ DayjsVal.val ⟨0, 0⟩ := by
  have h17 : intStr (-17) = "-17" := by
    unfold intStr intChars
    rw [if_pos (by decide), natChars, natChars]
    rfl
  refine ⟨by rw [h17]; decide, by decide, by decide, by decide, by decide⟩

/-- Fixtures for the C6 witness: `AoE`, canonical `UTC+8`, and a
non-`UTC` timezone. -/
def c6InstAoE : ConfInstance :=
  { year := 2026, timeline := none, timezone := some "AoE" }

def c6InstP8 : ConfInstance :=
  { year := 2026, timeline := none, timezone := some "UTC+8" }

def c6InstAbs : ConfInstance :=
  { year := 2026, timeline := none, timezone := some "Asia/Tokyo" }

/-- C6 witness: the amended theorem applied at concrete instances — `AoE`
equals `UTC-12`, `UTC+8` gives epoch `7 - 8·3600000` with offset 480
minutes, the bare `UTC` (unparseable remainder) gives a NaN-valued date
entry, and a non-`UTC` timezone is kept absolute. -/
theorem claim_C6_witness :
    (resolveItem c6InstAoE ⟨DeadlineField.date 7, none, none⟩).map (fun r => r.date) =
      (resolveItem { c6InstAoE with timezone := some "UTC-12" }
        ⟨DeadlineField.date 7, none, none⟩).map (fun r => r.date)
    ∧ resolveItem c6InstP8 ⟨DeadlineField.date 7, none, none⟩ =
        some ⟨DayjsVal.val ⟨7 - 28800000, 480⟩, c6InstP8, none⟩
    ∧ resolveItem c6InstBare ⟨DeadlineField.date 7, none, none⟩ =
        some ⟨DayjsVal.nan, c6InstBare, none⟩
    ∧ resolveItem c6InstAbs ⟨DeadlineField.date 7, none, none⟩ =
        some ⟨DayjsVal.val ⟨7, 0⟩, c6InstAbs, none⟩ := by
  have h1 := claim_C6_timezone_offsets c6InstAoE ⟨DeadlineField.date 7, none, none⟩ 7
  have h2 := claim_C6_timezone_offsets c6InstP8 ⟨DeadlineField.date 7, none, none⟩ 7
  have h4 := claim_C6_timezone_offsets c6InstBare ⟨DeadlineField.date 7, none, none⟩ 7
  have h3 := claim_C6_timezone_offsets c6InstAbs ⟨DeadlineField.date 7, none, none⟩ 7
  refine ⟨h1.1 rfl, ?_, ?_, ?_⟩
  · have h8 : natChars 8 = ['8'] := by rw [natChars]; rfl
    have he := h2.2.2.1 8 (by rw [h8]; decide) rfl
    rw [he]
    decide
  · exact h4.2.2.2.1 "UTC" rfl (by decide) (by decide) rfl
  · exact h3.2.2.2.2.1 "Asia/Tokyo" rfl (by decide) (by decide) rfl

/-- Fixture for the C1 witness: one instance in `UTC+8` with a `TBD` item,
a far-future deadline and a past deadline. -/
def c1Conf : Conference :=
  { title := "Gamma", description := "", sub := "AI",
    rank := some { ccf := some "A" },
    confs := some [
      { year := 2026,
        timeline := some [
          ⟨DeadlineField.TBD, none, none⟩,
          ⟨DeadlineField.date 9000000000, none, none⟩,
          ⟨DeadlineField.date 500, none, none⟩],
        timezone := some "UTC+8" }] }

/-- Fixture for the C1 counterexample: a first instance in `UTC+8` with one
past deadline, and a second instance whose timezone is the bare string
`"UTC"` (the database column default) with one parseable deadline —
`parseInt('')` is NaN, so the second entry is pushed with a NaN-valued
date. -/
def c1NanConf : Conference :=
  { title := "Delta", description := "", sub := "AI", rank := none,
    confs := some [
      { year := 2026,
        timeline := some [⟨DeadlineField.date 500, none, none⟩],
        timezone := some "UTC+8" },
      { year := 2026,
        timeline := some [⟨DeadlineField.date 1000, none, none⟩],
        timezone := some "UTC" }] }

/-- C1 counterexample: at `now = 0` the fixture's only real resolved instant
is the past epoch −28799500, so the claim requires the resolver to select
that chronologically latest past instant — but the bare-`UTC` entry is
pushed with a NaN-valued date that sorts as "equal" after it (ECMAScript
SortCompare maps the NaN comparator result to +0, and a two-element stable
sort must keep the order), and the last-element fallback returns the
NaN-dated entry instead. -/
theorem claim_C1_counterexample :
    resolvedEpochs c1NanConf = [-28799500]
    ∧ ¬ ((0 : Int) < -28799500)
    ∧ (getNextDeadline c1NanConf 0).map (fun r => r.date) = some DayjsVal.nan
    ∧ DayjsVal.nan ≠ DayjsVal.val ⟨-28799500, 480⟩ :=
  ⟨by decide, by decide, by decide, by decide⟩

/-- C1 witness: the fixture's entries all carry real instants; at `now = 0`
it has a future instant, the resolver picks the earliest future one (epoch
`9000000000 - 8·3600000`), and stripping the `TBD` item leaves the resolved
entry list unchanged. -/
theorem claim_C1_witness :
    (collectDeadlines (stripTBD c1Conf)).map (fun r => r.date) =
      (collectDeadlines c1Conf).map (fun r => r.date)
    ∧ allRealDL c1Conf = true
    ∧ getNextDeadline c1Conf 0 ≠ none
    ∧ (getNextDeadline c1Conf 0).bind dlEpoch? = some 8971200000 := by
  have h := claim_C1_next_deadline c1Conf 0
  obtain ⟨r, e, hr, hre, hfut, hmem, _⟩ :=
    (h.2.1 (by decide)).1 ⟨8971200000, by decide, by decide⟩
  have hep : resolvedEpochs c1Conf = [8971200000, -28799500] := by decide
  rw [hep] at hmem
  have he : e.epoch = 8971200000 := by
    rcases List.mem_cons.mp hmem with h1 | h1
    · exact h1
    · rw [List.mem_singleton] at h1
      rw [h1] at hfut
      exact absurd hfut (by decide)
  refine ⟨h.1, by decide, by rw [hr]; simp, ?_⟩
  rw [hr]
  simp [dlEpoch?, hre, he]

/-- C4 (amended): the Time Feasibility Scorer returns 70 when no budget is
given *or the budget is 0* (JS falsiness); 0 when the dayjs-truncated
day difference to the deadline is negative (a deadline less than one full
day past still falls through to the bands); and otherwise, with
`buffer = daysUntilDeadline − budget`: `max 0 (50 + 2·buffer)` when
`buffer < 0`, 75 when `0 ≤ buffer < 7`, 85 when `7 ≤ buffer < 14`, 95 when
`14 ≤ buffer < 30`, and 100 when `buffer ≥ 30`. -/
theorem claim_C4_time_feasibility (d : Djs) (b : Option Nat) (now : Int) :
    ((b = none ∨ b = some 0) → calculateTimeFeasibility (DayjsVal.val d) b now = 70)
    ∧ (∀ k : Nat, b = some k → k ≠ 0 →
      (diffDays d (serverNow now) < 0 → calculateTimeFeasibility (DayjsVal.val d) b now = 0)
      ∧ (0 ≤ diffDays d (serverNow now) → diffDays d (serverNow now) - (k : Int) < 0 →
          calculateTimeFeasibility (DayjsVal.val d) b now =
            max 0 (50 + (diffDays d (serverNow now) - (k : Int)) * 2))
      ∧ (0 ≤ diffDays d (serverNow now) - (k : Int) →
          diffDays d (serverNow now) - (k : Int) < 7 →
          calculateTimeFeasibility (DayjsVal.val d) b now = 75)
      ∧ (7 ≤ diffDays d (serverNow now) - (k : Int) →
          diffDays d (serverNow now) - (k : Int) < 14 →
          calculateTimeFeasibility (DayjsVal.val d) b now = 85)
      ∧ (14 ≤ diffDays d (serverNow now) - (k : Int) →
          diffDays d (serverNow now) - (k : Int) < 30 →
          calculateTimeFeasibility (DayjsVal.val d) b now = 95)
      ∧ (30 ≤ diffDays d (serverNow now) - (k : Int) →
          calculateTimeFeasibility (DayjsVal.val d) b now = 100)) := by
  have hnn : ∀ k : Nat, k ≠ 0 → 0 ≤ diffDays d (serverNow now) - (k : Int) →
      ¬ diffDays d (serverNow now) < 0 := by
    intro k hk h
    omega
  constructor
  · rintro (hb | hb) <;> subst hb <;> simp [calculateTimeFeasibility]
  · intro k hb hk
    subst hb
    have step : calculateTimeFeasibility (DayjsVal.val d) (some k) now =
        (if diffDays d (serverNow now) < 0 then 0
         else
          if diffDays d (serverNow now) - (k : Int) < 0 then
            max 0 (50 + (diffDays d (serverNow now) - (k : Int)) * 2)
          else if diffDays d (serverNow now) - (k : Int) < 7 then 75
          else if diffDays d (serverNow now) - (k : Int) < 14 then 85
          else if diffDays d (serverNow now) - (k : Int) < 30 then 95
          else 100) := by
      unfold calculateTimeFeasibility
      rw [show (some k).getD 0 = k from rfl, if_neg hk]
    refine ⟨?_, ?_, ?_, ?_, ?_, ?_⟩
    · intro hdd
      rw [step, if_pos hdd]
    · intro hdd hbuf
      rw [step, if_neg (by omega), if_pos hbuf]
    · intro h1 h2
      rw [step, if_neg (hnn k hk h1), if_neg (by omega), if_pos h2]
    · intro h1 h2
      rw [step, if_neg (hnn k hk (by omega)), if_neg (by omega), if_neg (by omega),
        if_pos h2]
    · intro h1 h2
      rw [step, if_neg (hnn k hk (by omega)), if_neg (by omega), if_neg (by omega),
        if_neg (by omega), if_pos h2]
    · intro h1
      rw [step, if_neg (hnn k hk (by omega)), if_neg (by omega), if_neg (by omega),
        if_neg (by omega), if_neg (by omega)]

/-- C4 counterexample: a deadline one hour in the past (epoch −3600000 at
`now = 0`) is "already past", yet the scorer returns 30 with a 10-day
budget, not 0; and a *specified* budget of 0 with the deadline 100 days
out returns the no-budget default 70, not the `buffer ≥ 30` band's 100. -/
theorem claim_C4_counterexample :
    ((⟨-3600000, 480⟩ : Djs).epoch < (0 : Int))
    ∧ calculateTimeFeasibility (DayjsVal.val ⟨-3600000, 480⟩) (some 10) 0 = 30
    ∧ calculateTimeFeasibility (DayjsVal.val ⟨8640000000, 480⟩) (some 0) 0 = 70
    ∧ (30 : Int) ≠ 0 ∧ (70 : Int) ≠ 100 :=
  ⟨by decide, by decide, by decide, by decide, by decide⟩

/-- C4 witness: the amended theorem applied at concrete inputs — no budget
gives 70, and a 20-day budget against a deadline 30 days out (buffer 10)
gives 85. -/
theorem claim_C4_witness :
    calculateTimeFeasibility (DayjsVal.val ⟨2592000000, 480⟩) none 0 = 70
    ∧ calculateTimeFeasibility (DayjsVal.val ⟨2592000000, 480⟩) (some 20) 0 = 85 := by
  have h := claim_C4_time_feasibility ⟨2592000000, 480⟩ (some 20) 0
  have h0 := claim_C4_time_feasibility ⟨2592000000, 480⟩ none 0
  exact ⟨h0.1 (Or.inl rfl), (h.2 20 rfl (by decide)).2.2.2.1 (by decide) (by decide)⟩

theorem jsRound_intCast (n : Int) : jsRound ((n : Int) : ℚ) = n := by
  unfold jsRound
  rw [Int.floor_int_add]
  norm_num

theorem jsRound_bounds {lo hi : Int} {x : ℚ} (h1 : (lo : ℚ) ≤ x) (h2 : x ≤ (hi : ℚ)) :
    lo ≤ jsRound x ∧ jsRound x ≤ hi := by
  unfold jsRound
  constructor
  · exact Int.le_floor.mpr (by linarith)
  · exact Int.floor_le_iff.mpr (by linarith)

/-- C5: the Difficulty Scorer returns the tier base unchanged (A→30, B→50,
C→70, absent or unknown→50, so in {30, 50, 70}) when there is no
acceptance-rate history, and otherwise adds `(latestRate − 25) · 0.5` for
the most recent entry, clamps to [20, 90] and rounds — so the output stays
within [20, 90]. -/
theorem claim_C5_difficulty (conf : Conference) :
    ((conf.acceptanceRate.getD []) = [] →
      calculateDifficulty conf = rankBase conf
      ∧ (calculateDifficulty conf = 30 ∨ calculateDifficulty conf = 50 ∨
          calculateDifficulty conf = 70)
      ∧ (ccfOf conf = some "A" → calculateDifficulty conf = 30)
      ∧ (ccfOf conf = some "B" → calculateDifficulty conf = 50)
      ∧ (ccfOf conf = some "C" → calculateDifficulty conf = 70)
      ∧ (ccfOf conf = none → calculateDifficulty conf = 50)
      ∧ (∀ s, ccfOf conf = some s → s ≠ "A" → s ≠ "B" → s ≠ "C" →
          calculateDifficulty conf = 50))
    ∧ (∀ e, (conf.acceptanceRate.getD []).getLast? = some e →
        calculateDifficulty conf =
          jsRound (min 90 (max 20 ((rankBase conf : Int) + (e.rate - 25) * 0.5)))
        ∧ 20 ≤ calculateDifficulty conf ∧ calculateDifficulty conf ≤ 90) := by
  constructor
  · intro h0
    have hbase : calculateDifficulty conf = rankBase conf := by
      unfold calculateDifficulty
      rw [h0]
      show jsRound ((rankBase conf : Int) : ℚ) = rankBase conf
      exact jsRound_intCast _
    have hset : rankBase conf = 30 ∨ rankBase conf = 50 ∨ rankBase conf = 70 := by
      unfold rankBase
      split <;> simp
    refine ⟨hbase, by rw [hbase]; exact hset, ?_, ?_, ?_, ?_, ?_⟩
    · intro h
      rw [hbase]
      simp [rankBase, h]
    · intro h
      rw [hbase]
      simp [rankBase, h]
    · intro h
      rw [hbase]
      simp [rankBase, h]
    · intro h
      rw [hbase]
      simp [rankBase, h]
    · intro s h hA hB hC
      rw [hbase]
      simp [rankBase, h, hA, hB, hC]
  · intro e he
    have heq : calculateDifficulty conf =
        jsRound (min 90 (max 20 ((rankBase conf : Int) + (e.rate - 25) * 0.5))) := by
      unfold calculateDifficulty
      rw [he]
    have hlo : (20 : ℚ) ≤ min 90 (max 20 ((rankBase conf : Int) + (e.rate - 25) * 0.5)) :=
      le_min (by norm_num) (le_max_left _ _)
    have hhi : min (90 : ℚ) (max 20 ((rankBase conf : Int) + (e.rate - 25) * 0.5)) ≤ 90 :=
      min_le_left _ _
    have hb := @jsRound_bounds 20 90
      (min 90 (max 20 ((rankBase conf : Int) + (e.rate - 25) * 0.5)))
      (by exact_mod_cast hlo) (by exact_mod_cast hhi)
    exact ⟨heq, by rw [heq]; exact hb.1, by rw [heq]; exact hb.2⟩

/-- Fixture for C5: a B-tier conference with a 45% latest acceptance rate. -/
def c5Conf : Conference :=
  { title := "Delta", description := "", sub := "SE",
    rank := some { ccf := some "B" }, confs := none,
    acceptanceRate := some [⟨2024, 45⟩] }

/-- C5 witness: the theorem applied at the fixtures — the A-tier conference
without history scores exactly 30; the conference with history stays
inside [20, 90] (here 60). -/
theorem claim_C5_witness :
    calculateDifficulty c1Conf = 30
    ∧ 20 ≤ calculateDifficulty c5Conf ∧ calculateDifficulty c5Conf ≤ 90
    ∧ calculateDifficulty c5Conf = 60 := by
  have h1 := claim_C5_difficulty c1Conf
  have h2 := claim_C5_difficulty c5Conf
  have hl : (c5Conf.acceptanceRate.getD []).getLast? = some ⟨2024, 45⟩ := by decide
  have hB := h2.2 ⟨2024, 45⟩ hl
  exact ⟨(h1.1 (by decide)).2.2.1 (by decide), hB.2.1, hB.2.2,
    by with_unfolding_all decide⟩

theorem sqSum_nonneg (a : List ℝ) : 0 ≤ sqSum a := by
  unfold sqSum
  apply List.sum_nonneg
  intro x hx
  obtain ⟨y, _, hy⟩ := List.mem_map.mp hx
  rw [← hy]
  exact mul_self_nonneg y

/-- C10: `cosineSimilarity` is total and guarded — 0 on length mismatch, 0
when either accumulated square norm is 0, and otherwise the dot product
divided by the product of the two Euclidean norms, whose divisor is
provably nonzero (no division by zero is reachable). -/
theorem claim_C10_cosine (a b : List ℝ) :
    (a.length ≠ b.length → cosineSimilarity a b = 0)
    ∧ (a.length = b.length → (sqSum a = 0 ∨ sqSum b = 0) → cosineSimilarity a b = 0)
    ∧ (a.length = b.length → sqSum a ≠ 0 → sqSum b ≠ 0 →
        cosineSimilarity a b =
          dotSum a b / (Real.sqrt (sqSum a) * Real.sqrt (sqSum b))
        ∧ Real.sqrt (sqSum a) * Real.sqrt (sqSum b) ≠ 0) := by
  refine ⟨?_, ?_, ?_⟩
  · intro h
    unfold cosineSimilarity
    rw [if_pos h]
  · intro h h0
    unfold cosineSimilarity
    rw [if_neg (by simp [h]), if_pos h0]
  · intro h ha hb
    have hapos : 0 < Real.sqrt (sqSum a) :=
      Real.sqrt_pos.mpr (lt_of_le_of_ne (sqSum_nonneg a) (Ne.symm ha))
    have hbpos : 0 < Real.sqrt (sqSum b) :=
      Real.sqrt_pos.mpr (lt_of_le_of_ne (sqSum_nonneg b) (Ne.symm hb))
    constructor
    · unfold cosineSimilarity
      rw [if_neg (by simp [h]), if_neg (by simp [ha, hb])]
    · exact ne_of_gt (mul_pos hapos hbpos)

/-- C10 witness: the guards and the main branch at concrete vectors —
mismatched lengths give 0, a zero-norm vector gives 0, and `[3,4]` against
itself takes the division branch with a nonzero divisor. -/
theorem claim_C10_witness :
    cosineSimilarity [1] [1, 0] = 0
    ∧ cosineSimilarity [0] [1] = 0
    ∧ cosineSimilarity [3, 4] [3, 4] =
        dotSum [3, 4] [3, 4] / (Real.sqrt (sqSum [3, 4]) * Real.sqrt (sqSum [3, 4]))
    ∧ Real.sqrt (sqSum [3, 4]) * Real.sqrt (sqSum [3, 4]) ≠ 0 := by
  have h1 := (claim_C10_cosine [1] [1, 0]).1 (by simp)
  have h2 := (claim_C10_cosine [0] [1]).2.1 (by simp) (Or.inl (by simp [sqSum]))
  have h25 : sqSum ([3, 4] : List ℝ) ≠ 0 := by
    simp [sqSum]
    norm_num
  have h3 := (claim_C10_cosine [3, 4] [3, 4]).2.2 rfl h25 h25
  exact ⟨h1, h2, h3.1, h3.2⟩

theorem c7_part1 (embScore : List ℚ → List ℚ → Int)
    (getEmb : String → Option (List ℚ)) (conf : Conference)
    (qv ce : List ℚ) (hce : conf.embedding = none)
    (hst : conf.searchText.getD "" ≠ "")
    (hemb : getEmb (conf.searchText.getD "") = some ce) :
    calculateContentMatch embScore getEmb conf [] (some qv) =
      (embScore qv ce, { conf with embedding := some ce }) := by
  simp only [calculateContentMatch, hce, hst, hemb, List.isEmpty_nil, if_true]
  simp [hst]

theorem c7_none_nil (embScore : List ℚ → List ℚ → Int)
    (getEmb : String → Option (List ℚ)) (conf : Conference) :
    calculateContentMatch embScore getEmb conf [] none = (50, conf) := by
  simp [calculateContentMatch]

theorem c7_none_cons (embScore : List ℚ → List ℚ → Int)
    (getEmb : String → Option (List ℚ)) (conf : Conference) (a : String) (ks : List String) :
    calculateContentMatch embScore getEmb conf (a :: ks) none =
      (jsRound (((a :: ks).map (keywordContribution conf)).sum /
        ((a :: ks).length : ℚ) * 100), conf) := by
  simp [calculateContentMatch]

theorem c7_some_some_hi (embScore : List ℚ → List ℚ → Int)
    (getEmb : String → Option (List ℚ)) (conf : Conference) (kws : List String)
    (qv ce0 : List ℚ) (hce : conf.embedding = some ce0)
    (hs : 60 < embScore qv ce0) :
    calculateContentMatch embScore getEmb conf kws (some qv) = (embScore qv ce0, conf) := by
  simp [calculateContentMatch, hce, hs]

theorem c7_some_some_lo_nil (embScore : List ℚ → List ℚ → Int)
    (getEmb : String → Option (List ℚ)) (conf : Conference)
    (qv ce0 : List ℚ) (hce : conf.embedding = some ce0)
    (hs : ¬ 60 < embScore qv ce0) :
    calculateContentMatch embScore getEmb conf [] (some qv) = (50, conf) := by
  simp [calculateContentMatch, hce, hs]

theorem c7_some_some_lo_cons (embScore : List ℚ → List ℚ → Int)
    (getEmb : String → Option (List ℚ)) (conf : Conference) (a : String) (ks : List String)
    (qv ce0 : List ℚ) (hce : conf.embedding = some ce0)
    (hs : ¬ 60 < embScore qv ce0) :
    calculateContentMatch embScore getEmb conf (a :: ks) (some qv) =
      (jsRound (((a :: ks).map (keywordContribution conf)).sum /
        ((a :: ks).length : ℚ) * 100), conf) := by
  simp [calculateContentMatch, hce, hs]

theorem c7_some_none_cons (embScore : List ℚ → List ℚ → Int)
    (getEmb : String → Option (List ℚ)) (conf : Conference) (a : String) (ks : List String)
    (qv : List ℚ) (hce : conf.embedding = none) :
    calculateContentMatch embScore getEmb conf (a :: ks) (some qv) =
      (jsRound (((a :: ks).map (keywordContribution conf)).sum /
        ((a :: ks).length : ℚ) * 100), conf) := by
  simp [calculateContentMatch, hce]

theorem c7_some_none_nost (embScore : List ℚ → List ℚ → Int)
    (getEmb : String → Option (List ℚ)) (conf : Conference)
    (qv : List ℚ) (hce : conf.embedding = none)
    (hst : conf.searchText.getD "" = "") :
    calculateContentMatch embScore getEmb conf [] (some qv) = (50, conf) := by
  simp [calculateContentMatch, hce, hst]

theorem c7_some_none_noemb (embScore : List ℚ → List ℚ → Int)
    (getEmb : String → Option (List ℚ)) (conf : Conference)
    (qv : List ℚ) (hce : conf.embedding = none)
    (hst : conf.searchText.getD "" ≠ "")
    (hemb : getEmb (conf.searchText.getD "") = none) :
    calculateContentMatch embScore getEmb conf [] (some qv) = (50, conf) := by
  simp [calculateContentMatch, hce, hst, hemb]

/-- C7 (amended): the Relevance Scorer is idempotent in every path except
one: when a query embedding exists, the conference initially lacks one, its
non-empty search text yields a lazily computed and cached embedding, and
the mapped score is at most the 60 threshold — then the first call returns
that mapped score while the second call returns the neutral 50 (idempotence
holds exactly when the lazy score exceeds 60 or happens to be 50). -/
theorem claim_C7_content_idempotence (embScore : List ℚ → List ℚ → Int)
    (getEmb : String → Option (List ℚ)) (conf : Conference)
    (kws : List String) (qe : Option (List ℚ)) :
    (∀ qv ce, kws = [] → qe = some qv → conf.embedding = none →
      conf.searchText.getD "" ≠ "" → getEmb (conf.searchText.getD "") = some ce →
      embScore qv ce ≤ 60 →
      (calculateContentMatch embScore getEmb conf kws qe).1 = embScore qv ce ∧
      (calculateContentMatch embScore getEmb
        (calculateContentMatch embScore getEmb conf kws qe).2 kws qe).1 = 50)
    ∧ ((∀ qv ce, kws = [] → qe = some qv → conf.embedding = none →
        conf.searchText.getD "" ≠ "" → getEmb (conf.searchText.getD "") = some ce →
        60 < embScore qv ce ∨ embScore qv ce = 50) →
      (calculateContentMatch embScore getEmb
        (calculateContentMatch embScore getEmb conf kws qe).2 kws qe).1 =
        (calculateContentMatch embScore getEmb conf kws qe).1) := by
  constructor
  · intro qv ce hk hqe hce hst hemb hle
    subst hk hqe
    have h1 := c7_part1 embScore getEmb conf qv ce hce hst hemb
    have hce' : ({ conf with embedding := some ce } : Conference).embedding = some ce := rfl
    have h2 := c7_some_some_lo_nil embScore getEmb { conf with embedding := some ce }
      qv ce hce' (by omega)
    refine ⟨by rw [h1], ?_⟩
    simp [h1, h2]
  · intro hgood
    cases hqe : qe with
    | none =>
      cases kws with
      | nil => simp [c7_none_nil]
      | cons a ks => simp [c7_none_cons]
    | some qv =>
      cases hce : conf.embedding with
      | some ce0 =>
        by_cases hs : 60 < embScore qv ce0
        · simp [c7_some_some_hi embScore getEmb conf kws qv ce0 hce hs]
        · cases kws with
          | nil => simp [c7_some_some_lo_nil embScore getEmb conf qv ce0 hce hs]
          | cons a ks => simp [c7_some_some_lo_cons embScore getEmb conf a ks qv ce0 hce hs]
      | none =>
        cases hk : kws with
        | cons a ks => simp [c7_some_none_cons embScore getEmb conf a ks qv hce]
        | nil =>
          by_cases hst : conf.searchText.getD "" = ""
          · simp [c7_some_none_nost embScore getEmb conf qv hce hst]
          · cases hemb : getEmb (conf.searchText.getD "") with
            | none => simp [c7_some_none_noemb embScore getEmb conf qv hce hst hemb]
            | some ce =>
              have h1 := c7_part1 embScore getEmb conf qv ce hce hst hemb
              have hce' : ({ conf with embedding := some ce } : Conference).embedding =
                some ce := rfl
              rcases hgood qv ce hk hqe hce hst hemb with hhi | h50
              · have h2 := c7_some_some_hi embScore getEmb
                  { conf with embedding := some ce } [] qv ce hce' hhi
                simp [h1, h2]
              · have h2 := c7_some_some_lo_nil embScore getEmb
                  { conf with embedding := some ce } qv ce hce' (by omega)
                simp [h1, h2, h50]

/-- Fixture for C7: a conference with no cached embedding and search text
`"t"`; the embedding service returns `[-1, 0]` for every text, and the
query embedding is `[1, 0]` — cosine similarity −1, mapped score 0. -/
def c7Conf : Conference :=
  { title := "Epsilon", description := "", sub := "AI", rank := none,
    confs := none, searchText := some "t" }

def c7GetEmb : String → Option (List ℚ) := fun _ => some [-1, 0]

theorem c7_cos_eval : cosineSimilarity [(1 : ℝ), 0] [-1, 0] = -1 := by
  unfold cosineSimilarity
  rw [if_neg (by simp)]
  rw [if_neg (by simp [sqSum])]
  norm_num [dotSum, sqSum, Real.sqrt_one]

theorem c7_embScoreReal_eval : embScoreReal [1, 0] [-1, 0] = 0 := by
  unfold embScoreReal jsRoundR
  rw [show (([1, 0] : List ℚ).map (fun x => (x : ℝ))) = [(1 : ℝ), 0] by simp,
    show (([-1, 0] : List ℚ).map (fun x => (x : ℝ))) = [(-1 : ℝ), 0] by simp,
    c7_cos_eval]
  rw [show ((-1 : ℝ) + 1) * 50 + 1 / 2 = 1 / 2 by norm_num]
  rw [Int.floor_eq_iff]
  norm_num

/-- C7 counterexample: with the real embedding score, the lazy path caches
the conference embedding on the first call and returns the mapped score 0;
the second call with identical inputs returns 50 — the Relevance Scorer is
not idempotent as claimed. -/
theorem claim_C7_counterexample :
    (calculateContentMatch embScoreReal c7GetEmb c7Conf [] (some [1, 0])).1 = 0
    ∧ (calculateContentMatch embScoreReal c7GetEmb
        (calculateContentMatch embScoreReal c7GetEmb c7Conf [] (some [1, 0])).2
        [] (some [1, 0])).1 = 50
    ∧ (0 : Int) ≠ 50 := by
  have h1 := c7_part1 embScoreReal c7GetEmb c7Conf [1, 0] [-1, 0] rfl (by decide) rfl
  have hce' : ({ c7Conf with embedding := some [-1, 0] } : Conference).embedding =
      some [-1, 0] := rfl
  have h2 := c7_some_some_lo_nil embScoreReal c7GetEmb
    { c7Conf with embedding := some [-1, 0] } [1, 0] [-1, 0] hce'
    (by rw [c7_embScoreReal_eval]; omega)
  refine ⟨by rw [h1]; simp [c7_embScoreReal_eval], ?_, by decide⟩
  rw [h1]
  simp [h2]

/-- C7 witness: the amended theorem applied with a concrete (constant-40)
embedding score in the lazy path — the first call returns 40, the second
returns 50. -/
theorem claim_C7_witness :
    (calculateContentMatch (fun _ _ => (40 : Int)) (fun _ => some [2]) c7Conf []
      (some [1])).1 = 40
    ∧ (calculateContentMatch (fun _ _ => (40 : Int)) (fun _ => some [2])
        (calculateContentMatch (fun _ _ => (40 : Int)) (fun _ => some [2]) c7Conf []
          (some [1])).2 [] (some [1])).1 = 50 :=
  (claim_C7_content_idempotence (fun _ _ => (40 : Int)) (fun _ => some [2]) c7Conf []
    (some [1])).1 [1] [2] rfl rfl rfl (by decide) rfl (by decide)

theorem cm_snd_shape (es : List ℚ → List ℚ → Int) (ge : String → Option (List ℚ))
    (conf : Conference) (kws : List String) (qe : Option (List ℚ)) :
    (calculateContentMatch es ge conf kws qe).2 = conf ∨
    ∃ ce, (calculateContentMatch es ge conf kws qe).2 =
      { conf with embedding := some ce } := by
  cases hqe : qe with
  | none =>
    cases kws with
    | nil => left; rw [c7_none_nil]
    | cons a ks => left; rw [c7_none_cons]
  | some qv =>
    cases hce : conf.embedding with
    | some ce0 =>
      by_cases hs : 60 < es qv ce0
      · left; rw [c7_some_some_hi es ge conf kws qv ce0 hce hs]
      · cases kws with
        | nil => left; rw [c7_some_some_lo_nil es ge conf qv ce0 hce hs]
        | cons a ks => left; rw [c7_some_some_lo_cons es ge conf a ks qv ce0 hce hs]
    | none =>
      cases kws with
      | cons a ks => left; rw [c7_some_none_cons es ge conf a ks qv hce]
      | nil =>
        by_cases hst : conf.searchText.getD "" = ""
        · left; rw [c7_some_none_nost es ge conf qv hce hst]
        · cases hemb : ge (conf.searchText.getD "") with
          | none => left; rw [c7_some_none_noemb es ge conf qv hce hst hemb]
          | some ce =>
            right
            exact ⟨ce, by rw [c7_part1 es ge conf qv ce hce hst hemb]⟩

theorem cm_snd_rank (es : List ℚ → List ℚ → Int) (ge : String → Option (List ℚ))
    (conf : Conference) (kws : List String) (qe : Option (List ℚ)) :
    ccfOf ((calculateContentMatch es ge conf kws qe).2) = ccfOf conf ∧
    ((calculateContentMatch es ge conf kws qe).2).confs = conf.confs := by
  rcases cm_snd_shape es ge conf kws qe with h | ⟨ce, h⟩ <;> rw [h] <;> exact ⟨rfl, rfl⟩

theorem getNextDeadline_congr {c₁ c₂ : Conference} (h : c₁.confs = c₂.confs)
    (now : Int) : getNextDeadline c₁ now = getNextDeadline c₂ now := by
  unfold getNextDeadline collectDeadlines
  rw [h]

theorem mem_catFilterStep {lq : String} {results : List Conference} {x : Conference}
    (h : x ∈ (catFilterStep lq results).1) : x ∈ results := by
  unfold catFilterStep at h
  cases hf : catKeywords.find? (fun p => p.2.any (fun k => strContains lq k)) with
  | none => rw [hf] at h; exact h
  | some p => rw [hf] at h; exact List.mem_of_mem_filter h

theorem mem_chinaFilterStep {lq : String} {results : List Conference} {x : Conference}
    (h : x ∈ chinaFilterStep lq results) : x ∈ results := by
  unfold chinaFilterStep at h
  split at h
  · exact List.mem_of_mem_filter h
  · exact h

theorem mem_yearFilterStep {lq : String} {results : List Conference} {x : Conference}
    (h : x ∈ yearFilterStep lq results) : x ∈ results := by
  unfold yearFilterStep at h
  split at h
  · exact List.mem_of_mem_filter h
  · exact h

theorem mem_step4 {lq : String} {mc : Bool} {now : Int} {results : List Conference}
    {x : Conference} (h : x ∈ step4 lq mc now results) : x ∈ results := by
  unfold step4 at h
  split at h
  · exact List.mem_of_mem_filter h
  · split at h
    · exact h
    · exact List.mem_of_mem_filter h

theorem mem_rankFilterStep {r : String} {results : List Conference} {x : Conference}
    (h : x ∈ rankFilterStep (some r) results) : ccfOf x = some r := by
  unfold rankFilterStep at h
  have := (List.mem_filter.mp h).2
  simpa using this

/-- Every entry of the sorted scored list comes from a filtered candidate,
with the same rank and the same instance list. -/
theorem mem_analyzeSorted {es : List ℚ → List ℚ → Int} {ge : String → Option (List ℚ)}
    {key : Bool} {now : Int} {query : String} {confs : List Conference}
    {e : ScoredEntry} (h : e ∈ analyzeSorted es ge key now query confs) :
    ∃ c0 ∈ analyzeFiltered now query confs,
      ccfOf e.conf = ccfOf c0 ∧ e.conf.confs = c0.confs ∧
      e.deadline = getNextDeadline c0 now ∧
      e.score = (calculateMatchScore es ge c0
        (((getNextDeadline c0 now).map (fun r => r.date)).getD
          (DayjsVal.val (oneYearLater now)))
        (extractUserIntent query) (if key then ge query else none) now).1 := by
  unfold analyzeSorted at h
  have hmem := (List.perm_insertionSort scoreGE _).mem_iff.mp h
  unfold scoreStep at hmem
  obtain ⟨c0, hc0, he⟩ := List.mem_map.mp hmem
  refine ⟨c0, hc0, ?_, ?_, ?_, ?_⟩
  · rw [← he]
    exact (cm_snd_rank es ge c0 _ _).1
  · rw [← he]
    exact (cm_snd_rank es ge c0 _ _).2
  · rw [← he]
  · rw [← he]

/-- C2: an extracted rank preference R is a hard filter — the rank-filter
stage keeps exactly the conferences whose CCF tier is R (before any scoring
happens), and every conference in the final ranked output has tier exactly
R (absent tiers can never match). -/
theorem claim_C2_rank_hard_filter (es : List ℚ → List ℚ → Int)
    (ge : String → Option (List ℚ)) (key : Bool) (now : Int) (query : String)
    (confs : List Conference) (r : String) :
    (∀ c ∈ rankFilterStep (some r) confs, ccfOf c = some r)
    ∧ ((extractUserIntent query).rankPreference = some r →
      ∀ c ∈ (analyzeQuery es ge key now query confs).results, ccfOf c = some r) := by
  constructor
  · intro c hc
    exact mem_rankFilterStep hc
  · intro hpref c hc
    have hres : (analyzeQuery es ge key now query confs).results =
        (analyzeSorted es ge key now query confs).map (fun e => e.conf) := rfl
    rw [hres] at hc
    obtain ⟨e, he, hec⟩ := List.mem_map.mp hc
    obtain ⟨c0, hc0, hrank, _, _, _⟩ := mem_analyzeSorted he
    have h1 : c0 ∈ stagePreName query confs := mem_step4 hc0
    have h2 : c0 ∈ (stageCat query confs).1 :=
      mem_chinaFilterStep (mem_yearFilterStep h1)
    have h3 : c0 ∈ rankFilterStep (extractUserIntent query).rankPreference confs :=
      mem_catFilterStep h2
    rw [hpref] at h3
    rw [← hec, hrank]
    exact mem_rankFilterStep h3

/-- Shared fixture: one future-deadline instance (epoch 8971200000 at
`now = 0`) in `UTC+8`. -/
def wInst : ConfInstance :=
  { year := 2026, timeline := some [⟨DeadlineField.date 9000000000, none, none⟩],
    timezone := some "UTC+8" }

def wConfA : Conference :=
  { title := "Alphaconf", description := "", sub := "AI",
    rank := some { ccf := some "A" }, confs := some [wInst] }

def wConfB : Conference :=
  { title := "Betaconf", description := "", sub := "AI",
    rank := some { ccf := some "B" }, confs := some [wInst] }

/-- C2 witness: for the query `"ccf a"` over an A-tier and a B-tier
conference, the extracted preference is A and the A-tier conference — a
member of the ranked output — indeed has tier A by the theorem. -/
theorem claim_C2_witness :
    (extractUserIntent "ccf a").rankPreference = some "A"
    ∧ wConfA ∈ (analyzeQuery (fun _ _ => 0) (fun _ => none) false 0 "ccf a"
        [wConfA, wConfB]).results
    ∧ ccfOf wConfA = some "A" := by
  have h := (claim_C2_rank_hard_filter (fun _ _ => 0) (fun _ => none) false 0 "ccf a"
    [wConfA, wConfB] "A").2
  have hmem : wConfA ∈ (analyzeQuery (fun _ _ => 0) (fun _ => none) false 0 "ccf a"
      [wConfA, wConfB]).results := by decide
  exact ⟨by decide, hmem, h (by decide) wConfA hmem⟩

/-- C3: every entry of the ranked output has
`overall = round(content·0.4 + feasibility·0.35 + difficulty·0.25)`, and
adjacent entries are in descending overall-score order. -/
theorem claim_C3_overall_score_sorted (es : List ℚ → List ℚ → Int)
    (ge : String → Option (List ℚ)) (key : Bool) (now : Int) (query : String)
    (confs : List Conference) :
    (∀ e ∈ (analyzeQuery es ge key now query confs).scoredResults,
      e.score.overallScore = jsRound ((e.score.contentMatch : ℚ) * 0.4 +
        (e.score.timeFeasibility : ℚ) * 0.35 + (e.score.difficultyScore : ℚ) * 0.25))
    ∧ List.Chain' (fun a b => b.score.overallScore ≤ a.score.overallScore)
        (analyzeQuery es ge key now query confs).scoredResults := by
  have hsc : (analyzeQuery es ge key now query confs).scoredResults =
      analyzeSorted es ge key now query confs := rfl
  constructor
  · intro e he
    rw [hsc] at he
    obtain ⟨c0, _, _, _, _, hscore⟩ := mem_analyzeSorted he
    rw [hscore]
    rfl
  · rw [hsc]
    exact (List.sorted_insertionSort scoreGE _).chain'

theorem c3w_int : extractUserIntent "" =
    { researchTopic := none, estimatedDays := none, rankPreference := none,
      keywords := [] } := by decide
theorem c3w_gnd : getNextDeadline wConfB 0 = some ⟨DayjsVal.val ⟨8971200000, 480⟩, wInst, none⟩ := by decide
theorem c3w_fil : analyzeFiltered 0 "" [wConfB] = [wConfB] := by decide
theorem c3w_tf : calculateTimeFeasibility (DayjsVal.val ⟨8971200000, 480⟩) none 0 = 70 := by
  decide
theorem c3w_df : calculateDifficulty wConfB = 50 := by with_unfolding_all decide
theorem c3w_ov : jsRound (((50 : Int) : ℚ) * 0.4 + ((70 : Int) : ℚ) * 0.35 +
    ((50 : Int) : ℚ) * 0.25) = 57 := by
  with_unfolding_all decide
theorem c3w_ms : calculateMatchScore (fun _ _ => 0) (fun _ => none) wConfB
    (DayjsVal.val ⟨8971200000, 480⟩) (extractUserIntent "") none 0 =
      (⟨50, 70, 50, 57⟩, wConfB) := by
  unfold calculateMatchScore
  rw [c3w_int]
  simp only [c7_none_nil, c3w_tf, c3w_df, c3w_ov]
theorem c3w_sorted : (analyzeQuery (fun _ _ => 0) (fun _ => none) false 0 "" [wConfB]).scoredResults =
    [⟨wConfB, ⟨50, 70, 50, 57⟩, some ⟨DayjsVal.val ⟨8971200000, 480⟩, wInst, none⟩⟩] := by
  show analyzeSorted (fun _ _ => 0) (fun _ => none) false 0 "" [wConfB] = _
  unfold analyzeSorted scoreStep
  rw [c3w_fil]
  simp only [Bool.false_eq_true, if_false, List.map_cons, List.map_nil, c3w_gnd,
    Option.map_some', Option.getD_some, c3w_ms]
  rfl

/-- C3 witness: the theorem at concrete catalogs — the two-conference
output is sorted descending (57 then 52), and the concrete singleton-catalog
output entry satisfies the weighted-round formula. -/
theorem claim_C3_witness :
    List.Chain' (fun a b => b.score.overallScore ≤ a.score.overallScore)
      (analyzeQuery (fun _ _ => 0) (fun _ => none) false 0 ""
        [wConfA, wConfB]).scoredResults
    ∧ (⟨wConfB, ⟨50, 70, 50, 57⟩, some ⟨DayjsVal.val ⟨8971200000, 480⟩, wInst, none⟩⟩ :
        ScoredEntry).score.overallScore =
      jsRound (((⟨wConfB, ⟨50, 70, 50, 57⟩, some ⟨DayjsVal.val ⟨8971200000, 480⟩, wInst, none⟩⟩ :
          ScoredEntry).score.contentMatch : ℚ) * 0.4 +
        ((⟨wConfB, ⟨50, 70, 50, 57⟩, some ⟨DayjsVal.val ⟨8971200000, 480⟩, wInst, none⟩⟩ :
          ScoredEntry).score.timeFeasibility : ℚ) * 0.35 +
        ((⟨wConfB, ⟨50, 70, 50, 57⟩, some ⟨DayjsVal.val ⟨8971200000, 480⟩, wInst, none⟩⟩ :
          ScoredEntry).score.difficultyScore : ℚ) * 0.25) := by
  have h := claim_C3_overall_score_sorted (fun _ _ => 0) (fun _ => none) false 0 ""
    [wConfA, wConfB]
  have h1 := claim_C3_overall_score_sorted (fun _ _ => 0) (fun _ => none) false 0 ""
    [wConfB]
  refine ⟨h.2, ?_⟩
  have hmem : (⟨wConfB, ⟨50, 70, 50, 57⟩, some ⟨DayjsVal.val ⟨8971200000, 480⟩, wInst, none⟩⟩ :
      ScoredEntry) ∈ (analyzeQuery (fun _ _ => 0) (fun _ => none) false 0 ""
        [wConfB]).scoredResults := by
    rw [c3w_sorted]
    exact List.mem_singleton_self _
  exact h1.1 _ hmem

/-- C8 (amended): the expired-conference exclusion is an if/else policy of
step 4's *else* branch only.  When a past signal is present (and the
name-match branch is not taken) step 4 removes nothing; when no past signal
is present and the name-match branch is not taken, every conference in the
final output has a next deadline entry that does not count as expired — a
NaN-valued date gives a NaN diff, which is not `< 0`, so such entries count
as status `'Active'` and their conferences are retained by the filter, as
the last conjunct states.  (On the name-match branch — query text matching
some but not all candidates' title/description with no category match —
expired conferences are retained, per the counterexample.) -/
theorem claim_C8_expired_policy (es : List ℚ → List ℚ → Int)
    (ge : String → Option (List ℚ)) (key : Bool) (now : Int) (query : String)
    (confs : List Conference) :
    (∀ lq mc results, nameBranchCond lq mc results = false → wantsPast lq = true →
      step4 lq mc now results = results)
    ∧ (wantsPast (lowerStr query) = false →
      nameBranchCond (lowerStr query) (stageCat query confs).2
        (stagePreName query confs) = false →
      ∀ c ∈ (analyzeQuery es ge key now query confs).results,
        ∃ r, getNextDeadline c now = some r ∧ deadlineExpired r.date now = false)
    ∧ (∀ results c, c ∈ results →
      (∃ r, getNextDeadline c now = some r ∧ deadlineExpired r.date now = false) →
      c ∈ notExpiredFilter now results) := by
  refine ⟨?_, ?_, ?_⟩
  · intro lq mc results hnb hwp
    unfold step4
    rw [hnb, hwp]
    simp
  · intro hwp hnb c hc
    have heq : analyzeFiltered now query confs =
        notExpiredFilter now (stagePreName query confs) := by
      unfold analyzeFiltered step4
      rw [hnb, hwp]
      simp
    have hres : (analyzeQuery es ge key now query confs).results =
        (analyzeSorted es ge key now query confs).map (fun e => e.conf) := rfl
    rw [hres] at hc
    obtain ⟨e, he, hec⟩ := List.mem_map.mp hc
    obtain ⟨c0, hc0, _, hconfs, _, _⟩ := mem_analyzeSorted he
    rw [heq] at hc0
    have hpred := (List.mem_filter.mp hc0).2
    cases hg : getNextDeadline c0 now with
    | none => rw [hg] at hpred; simp at hpred
    | some r =>
      rw [hg] at hpred
      simp only [Bool.not_eq_true'] at hpred
      refine ⟨r, ?_, hpred⟩
      rw [← hec, getNextDeadline_congr hconfs now, hg]
  · rintro results c hc ⟨r, hr, he⟩
    unfold notExpiredFilter
    refine List.mem_filter.mpr ⟨hc, ?_⟩
    simp [hr, he]

/-- Fixture for C8: a conference whose only deadline is long expired. -/
def c8ConfOld : Conference :=
  { title := "Oldconf", description := "", sub := "AI", rank := none,
    confs := some [
      { year := 2020, timeline := some [⟨DeadlineField.date 500, none, none⟩],
        timezone := some "UTC+8" }] }

/-- C8 counterexample: the query `"oldconf"` contains no past signal, the
fixture's next resolved deadline is expired, and yet it appears in the
results — the name-match branch skips the expired-exclusion filter, so the
claim's unconditional exclusion is false. -/
theorem claim_C8_counterexample :
    wantsPast (lowerStr "oldconf") = false
    ∧ (getNextDeadline c8ConfOld 0).map (fun r => deadlineExpired r.date 0) = some true
    ∧ c8ConfOld ∈ (analyzeQuery (fun _ _ => 0) (fun _ => none) false 0 "oldconf"
        [c8ConfOld, wConfB]).results :=
  ⟨by decide, by decide, by decide⟩

/-- Fixture for the C8 witness: a conference whose only deadline entry has
the bare timezone `"UTC"`, hence a NaN-valued date (status `'Active'`). -/
def c8NanInst : ConfInstance :=
  { year := 2026, timeline := some [⟨DeadlineField.date 1000, none, none⟩],
    timezone := some "UTC" }

def c8ConfNan : Conference :=
  { title := "Nanconf", description := "", sub := "AI", rank := none,
    confs := some [c8NanInst] }

/-- C8 witness: the amended theorem at concrete inputs — with a past signal
(`"past"`) step 4 removes nothing; on a no-past-signal query that does not
take the name-match branch the surviving conference's next deadline is not
expired; and a conference whose next deadline entry is NaN-dated (bare
`"UTC"` timezone) survives the expired-exclusion filter. -/
theorem claim_C8_witness :
    step4 "past" false 0 [c8ConfOld] = [c8ConfOld]
    ∧ deadlineExpired (DayjsVal.val ⟨8971200000, 480⟩) 0 = false
    ∧ c8ConfNan ∈ notExpiredFilter 0 [c8ConfNan] := by
  have h := claim_C8_expired_policy (fun _ _ => 0) (fun _ => none) false 0 "betaconf"
    [wConfB]
  refine ⟨h.1 "past" false [c8ConfOld] (by decide) (by decide), ?_, ?_⟩
  · obtain ⟨r, hr, he⟩ := h.2.1 (by decide) (by decide) wConfB (by decide)
    rw [c3w_gnd] at hr
    obtain rfl : (⟨DayjsVal.val ⟨8971200000, 480⟩, wInst, none⟩ : ResolvedDL) = r :=
      Option.some.inj hr
    exact he
  · exact h.2.2 [c8ConfNan] c8ConfNan (by decide)
      ⟨⟨DayjsVal.nan, c8NanInst, none⟩, by decide, by decide⟩

theorem c9_eq (q : String) : (extractUserIntent q).estimatedDays =
    (if progressGate q && decide ((((timeBudgetNum (lowerStr q).data).map
        (fun n => n * unitMultiplier (lowerStr q))).getD 0) = 0)
     then some (qualVal q)
     else (timeBudgetNum (lowerStr q).data).map
       (fun n => n * unitMultiplier (lowerStr q))) := rfl

/-- C9 (amended): the time budget comes from the *first* matching numeric
pattern's number, but the unit factor is decided by whole-query checks —
×30 if the query mentions 月/month anywhere, else ×7 if 周/week, else ×1 —
not by the matched pattern's own unit; the qualitative progress rules fire
only when the query contains a progress-gate keyword
(完成度/进度/刚开始/快完成) and the numeric budget is unset *or zero* (a
numeric 0 is overwritten); with no numeric match and no gate keyword the
budget stays unset. -/
theorem claim_C9_time_budget (q : String) :
    (∀ n, timeBudgetNum (lowerStr q).data = some n →
      n * unitMultiplier (lowerStr q) ≠ 0 →
      (extractUserIntent q).estimatedDays = some (n * unitMultiplier (lowerStr q)))
    ∧ (timeBudgetNum (lowerStr q).data = none → progressGate q = true →
      (extractUserIntent q).estimatedDays = some (qualVal q))
    ∧ (timeBudgetNum (lowerStr q).data = none → progressGate q = false →
      (extractUserIntent q).estimatedDays = none)
    ∧ (∀ n, timeBudgetNum (lowerStr q).data = some n →
      n * unitMultiplier (lowerStr q) = 0 → progressGate q = true →
      (extractUserIntent q).estimatedDays = some (qualVal q))
    ∧ (∀ n, timeBudgetNum (lowerStr q).data = some n →
      n * unitMultiplier (lowerStr q) = 0 → progressGate q = false →
      (extractUserIntent q).estimatedDays = some 0)
    ∧ ((strContains (lowerStr q) "月" || strContains (lowerStr q) "month") = true →
        unitMultiplier (lowerStr q) = 30)
    ∧ ((strContains (lowerStr q) "月" || strContains (lowerStr q) "month") = false →
        (strContains (lowerStr q) "周" || strContains (lowerStr q) "week") = true →
        unitMultiplier (lowerStr q) = 7)
    ∧ ((strContains (lowerStr q) "月" || strContains (lowerStr q) "month") = false →
        (strContains (lowerStr q) "周" || strContains (lowerStr q) "week") = false →
        unitMultiplier (lowerStr q) = 1) := by
  refine ⟨?_, ?_, ?_, ?_, ?_, ?_, ?_, ?_⟩
  · intro n hn hnz
    rw [c9_eq, hn]
    simp [hnz]
  · intro hn hg
    rw [c9_eq, hn]
    simp [hg]
  · intro hn hg
    rw [c9_eq, hn]
    simp [hg]
  · intro n hn hz hg
    rw [c9_eq, hn]
    simp [hg, hz]
  · intro n hn hz hg
    rw [c9_eq, hn]
    simp [hg, hz]
  · intro h
    unfold unitMultiplier
    rw [h]
    simp
  · intro h1 h2
    unfold unitMultiplier
    rw [h1, h2]
    simp
  · intro h1 h2
    unfold unitMultiplier
    rw [h1, h2]
    simp

/-- C9 counterexample: `"3 weeks month"` matches the weeks pattern first
(n = 3) but the whole-query unit check sees "month" and yields 90 days, not
3·7 = 21; `"60%已完成"` has no gate keyword, so "60%" sets nothing; and in
`"0天进度"` the numeric first match (0 days) is overwritten by the
qualitative rule to 90. -/
theorem claim_C9_counterexample :
    (extractUserIntent "3 weeks month").estimatedDays = some 90
    ∧ (90 : Nat) ≠ 3 * 7
    ∧ (extractUserIntent "60%已完成").estimatedDays = none
    ∧ (extractUserIntent "0天进度").estimatedDays = some 90 :=
  ⟨by decide, by decide, by decide, by decide⟩

/-- C9 witness: the amended theorem at concrete queries — `"2周"` gives
2·7 = 14 days, and `"进度50%"` takes the generic qualitative value 90. -/
theorem claim_C9_witness :
    (extractUserIntent "2周").estimatedDays = some 14
    ∧ (extractUserIntent "进度50%").estimatedDays = some 90 := by
  have h1 := (claim_C9_time_budget "2周").1 2 (by decide) (by decide)
  have h2 := (claim_C9_time_budget "进度50%").2.1 (by decide) (by decide)
  exact ⟨h1.trans (by decide), h2.trans (by decide)⟩
